import Mathlib

/-!
Shallow embedding of the silver-layer transformation engine of the
customer-analytics e-commerce pipeline (`src/preprocessing.py`,
`scripts/build_churn_dataset.py`, `scripts/validate_silver.py`).

Columns are lists of cells; a table is a list of typed rows.  Numeric cells
are rationals (`ℚ`); a float column that can hold pandas `NaN` is modelled by
`PFloat` (finite value, NaN, or a signed infinity), and a nullable id column
by `Option ℕ`.  Timestamps are whole seconds, so `Timedelta.dt.days` is
division by 86400.  String-valued payment types are coded as naturals in the
lexicographic order of the type strings (pandas sorts the modes of an object
column lexicographically, so only the order matters).
-/

set_option allowUnsafeReducibility true
attribute [local semireducible] Rat.add Rat.mul Rat.inv Rat.sub

namespace EcomSilver

/-- A pandas float cell: a finite rational, `nan` (the missing value), or a
signed infinity (what numpy float division by zero produces for a nonzero
numerator). -/
inductive PFloat where
  | num (q : ℚ)
  | nan
  | posInf
  | negInf
deriving DecidableEq, Repr, Inhabited

/-- Lift a possibly-missing rational cell to a pandas float (missing ↦ NaN). -/
def PFloat.ofOption : Option ℚ → PFloat
  | some q => .num q
  | none => .nan

/-- The finite value of a pandas float, if any (NaN and infinities have none). -/
def PFloat.toNum : PFloat → Option ℚ
  | .num q => some q
  | _ => none

/-- Float addition: finite values add, NaN propagates, infinities keep their
sign (`+∞ + -∞` is NaN).  In this pipeline only the finite and NaN cases are
reachable. -/
def PFloat.add : PFloat → PFloat → PFloat
  | .num a, .num b => .num (a + b)
  | .posInf, .num _ => .posInf
  | .num _, .posInf => .posInf
  | .posInf, .posInf => .posInf
  | .negInf, .num _ => .negInf
  | .num _, .negInf => .negInf
  | .negInf, .negInf => .negInf
  | _, _ => .nan

/-- Float division as numpy performs it (pandas raises no error): a zero
denominator yields NaN when the numerator is zero and a signed infinity
otherwise; NaN propagates.  A finite value divided by an infinity is zero
(the sign of zero is not modelled; that case is unreachable here). -/
def PFloat.div : PFloat → PFloat → PFloat
  | .num a, .num b =>
      if b ≠ 0 then .num (a / b)
      else if 0 < a then .posInf
      else if a < 0 then .negInf
      else .nan
  | .posInf, .num b => if b < 0 then .negInf else .posInf
  | .negInf, .num b => if b < 0 then .posInf else .negInf
  | .num _, .posInf => .num 0
  | .num _, .negInf => .num 0
  | _, _ => .nan

/-- The finite (non-NaN, non-infinite) entries of a float column; pandas
quantile, sum and mean skip NaN entries. -/
def finiteVals (x : List PFloat) : List ℚ := x.filterMap PFloat.toNum

/-- Ascending sort of a rational column (what quantile computation sorts). -/
def sortColumn (l : List ℚ) : List ℚ := l.insertionSort (· ≤ ·)

/-- The sorted list of distinct keys of a key column: the group index that
`DataFrame.groupby` produces (its default `sort=True` sorts the keys; rows
with a missing key are dropped before this function is applied). -/
def groupKeys (l : List ℕ) : List ℕ := (l.insertionSort (· ≤ ·)).dedup

/-- Number of occurrences of the value `v` in the column `xs`. -/
def countVal (xs : List ℕ) (v : ℕ) : ℕ := xs.countP (· == v)

/-- The largest occurrence count attained by any value of `xs`. -/
def maxCount (xs : List ℕ) : ℕ :=
  (groupKeys xs).foldr (fun v m => max (countVal xs v) m) 0

/-- `Series.mode()[0]` on the non-missing values `xs` of a group: pandas
returns the modes sorted ascending, so index `[0]` picks the smallest value
attaining the maximal count.  When `xs` is empty (an all-NaN group after the
default `dropna`), `mode()` is an empty series and `[0]` raises `KeyError`,
modelled by `none`. -/
def modeFirst (xs : List ℕ) : Option ℕ :=
  (groupKeys xs).find? (fun v => countVal xs v == maxCount xs)

/-- Modelled from the spec: the tie-break §4.1 of the specification describes
for the modal payment type — the first value, in the input's row order, that
attains the maximal count.  Stated only to compare with `modeFirst`, the
behaviour of the code. -/
def modeRowOrderFirst (xs : List ℕ) : Option ℕ :=
  xs.find? (fun v => countVal xs v == maxCount xs)

/-- `Series.rank(method="first")`: entry `i` ranks one plus the number of
strictly smaller entries plus the number of equal entries at earlier
positions, so ties are broken by row order and all ranks are distinct. -/
def rankFirst (x : List ℚ) : List ℚ :=
  x.mapIdx fun i v =>
    ((x.countP (fun w => decide (w < v)) + (x.take i).countP (fun w => w == v) + 1 : ℕ) : ℚ)

/-- Linear-interpolation quantile (the numpy/pandas default) of the sorted
column `s`: position `h = q * (n - 1)`, interpolating between the two
neighbouring entries. -/
def interpQuantile (s : List ℚ) (q : ℚ) : ℚ :=
  let h : ℚ := q * ((s.length : ℚ) - 1)
  let i : ℕ := ⌊h⌋₊
  let lo := s.getD i 0
  let hi := s.getD (i + 1) lo
  lo + (h - (i : ℚ)) * (hi - lo)

/-- The `k`-th of the `parts + 1` bin edges `pd.qcut(x, parts)` computes:
the `k/parts` quantile of the column. -/
def quantEdge (x : List ℚ) (k parts : ℕ) : ℚ :=
  interpQuantile (sortColumn x) ((k : ℚ) / (parts : ℚ))

/-- Assignment of an in-range value to one of five right-closed quantile
intervals delimited by the four interior edges; the column minimum, which
equals edge 0, lands in bin 0 (qcut's include-lowest rule). -/
def bin5 (e1 e2 e3 e4 : ℚ) (v : ℚ) : Fin 5 :=
  if v ≤ e1 then 0 else if v ≤ e2 then 1 else if v ≤ e3 then 2
  else if v ≤ e4 then 3 else 4

/-- `pd.qcut(x, 5, labels := ls)`: `none` models the `ValueError` raised when
the computed bin edges are not all distinct (`duplicates="raise"`, the
default); otherwise every entry is labelled by its quintile bin, `ls` listed
in ascending bin order. -/
def qcut5 (x : List ℚ) (ls : Fin 5 → ℕ) : Option (List ℕ) :=
  if quantEdge x 0 5 < quantEdge x 1 5 ∧ quantEdge x 1 5 < quantEdge x 2 5 ∧
      quantEdge x 2 5 < quantEdge x 3 5 ∧ quantEdge x 3 5 < quantEdge x 4 5 ∧
      quantEdge x 4 5 < quantEdge x 5 5 then
    some (x.map fun v =>
      ls (bin5 (quantEdge x 1 5) (quantEdge x 2 5) (quantEdge x 3 5) (quantEdge x 4 5) v))
  else none

/-- Distinctness of the five quartile edges of a float column (NaN entries
are skipped when the quantiles are computed): the condition under which
`pd.qcut(x, 4)` does not raise. -/
def qcut4Ok (x : List PFloat) : Prop :=
  quantEdge (finiteVals x) 0 4 < quantEdge (finiteVals x) 1 4 ∧
  quantEdge (finiteVals x) 1 4 < quantEdge (finiteVals x) 2 4 ∧
  quantEdge (finiteVals x) 2 4 < quantEdge (finiteVals x) 3 4 ∧
  quantEdge (finiteVals x) 3 4 < quantEdge (finiteVals x) 4 4

instance (x : List PFloat) : Decidable (qcut4Ok x) := by
  unfold qcut4Ok; infer_instance

/-- Assignment to one of four right-closed quartile intervals (labels
Low/Medium/High/Premium are coded 0..3); a NaN entry gets a NaN label. -/
def qcut4Label (x : List PFloat) (v : PFloat) : Option (Fin 4) :=
  match v with
  | .num q =>
      some (if q ≤ quantEdge (finiteVals x) 1 4 then 0
        else if q ≤ quantEdge (finiteVals x) 2 4 then 1
        else if q ≤ quantEdge (finiteVals x) 3 4 then 2 else 3)
  | _ => none

/-- `pd.cut(review_score, bins := [0,2,3,4,5], labels := [Poor,Fair,Good,
Excellent])` (labels coded 0..3): fixed right-closed edges; scores outside
`(0, 5]` and missing scores get a missing category. -/
def review_cut (v : PFloat) : Option (Fin 4) :=
  match v with
  | .num q =>
      if 0 < q ∧ q ≤ 2 then some 0
      else if 2 < q ∧ q ≤ 3 then some 1
      else if 3 < q ∧ q ≤ 4 then some 2
      else if 4 < q ∧ q ≤ 5 then some 3
      else none
  | _ => none

/-- pandas left merge on a single key: every left row is paired with each
matching right row in order, or kept once with a missing right side when no
right row matches. -/
def leftMerge {α β γ : Type} (L : List α) (R : List β) (kL : α → ℕ) (kR : β → ℕ)
    (comb : α → Option β → γ) : List γ :=
  L.flatMap fun a =>
    match R.filter (fun b => kR b == kL a) with
    | [] => [comb a none]
    | bs => bs.map (fun b => comb a (some b))

/-- pandas inner merge on a single key: every left row paired with each
matching right row; left rows without a match are dropped. -/
def innerMerge {α β γ : Type} (L : List α) (R : List β) (kL : α → ℕ) (kR : β → ℕ)
    (comb : α → β → γ) : List γ :=
  L.flatMap fun a => (R.filter (fun b => kR b == kL a)).map (comb a)

/-- Run a per-group aggregation over every group in order, failing (as the
raised exception makes the whole `.agg` call fail) when any group fails. -/
def traverseGroups {α β : Type} (f : α → Option β) : List α → Option (List β)
  | [] => some []
  | a :: l =>
    match f a, traverseGroups f l with
    | some b, some bs => some (b :: bs)
    | _, _ => none

/-! Bronze-layer row types (`SilverProcessor.load_bronze` inputs).  The
`products` table is loaded but never joined or read by the silver build, so
it is not modelled.  Demographic pass-through columns of `customers` and
calendar pass-through columns not referenced by any claim are omitted: each
would be one more independent copied field on every row. -/

/-- One row of the bronze `orders` table. -/
structure OrderRow where
  order_id : ℕ
  customer_id : ℕ
  order_status : String
  order_purchase_timestamp : ℕ
  order_delivered_customer_date : ℕ
deriving DecidableEq, Repr, Inhabited

/-- One row of the bronze `customers` table. -/
structure CustomerRow where
  customer_id : ℕ
  customer_unique_id : ℕ
deriving DecidableEq, Repr, Inhabited

/-- One row of the bronze `order_items` table. -/
structure ItemRow where
  order_id : ℕ
  order_item_id : ℕ
  price : ℚ
  freight_value : ℚ
deriving DecidableEq, Repr, Inhabited

/-- One row of the bronze `payments` table; `payment_type` is nullable. -/
structure PaymentRow where
  order_id : ℕ
  payment_value : ℚ
  payment_type : Option ℕ
deriving DecidableEq, Repr, Inhabited

/-- One row of the bronze `reviews` table. -/
structure ReviewRow where
  order_id : ℕ
  review_score : ℚ
deriving DecidableEq, Repr, Inhabited

/-- One row of the order-level table after the four joins of
`SilverProcessor.build_order_level`: the delivered order's own columns plus
the left-joined customer attribute and the per-order aggregates, each
missing when the join finds no counterpart. -/
structure FactRow where
  order_id : ℕ
  customer_id : ℕ
  order_status : String
  order_purchase_timestamp : ℕ
  order_delivered_customer_date : ℕ
  customer_unique_id : Option ℕ
  items_count : Option ℕ
  total_price : Option ℚ
  total_freight : Option ℚ
  avg_item_price : Option ℚ
  payment_value : Option ℚ
  payment_type : Option ℕ
  review_score : Option ℚ
deriving DecidableEq, Repr, Inhabited

/-- The group of item rows of one order. -/
def itemsGroup (items : List ItemRow) (o : ℕ) : List ItemRow :=
  items.filter (·.order_id == o)

/-- One row of `items_agg`: count of item lines (the `order_item_id` column
has no missing entries, so `count` is the group size), summed price, summed
freight, mean item price. -/
structure ItemsAggRow where
  order_id : ℕ
  items_count : ℕ
  total_price : ℚ
  total_freight : ℚ
  avg_item_price : ℚ
deriving DecidableEq, Repr, Inhabited

/-- `self.order_items.groupby("order_id").agg(...)` of `build_order_level`. -/
def itemsAgg (items : List ItemRow) : List ItemsAggRow :=
  (groupKeys (items.map (·.order_id))).map fun o =>
    { order_id := o
      items_count := (itemsGroup items o).length
      total_price := ((itemsGroup items o).map (·.price)).sum
      total_freight := ((itemsGroup items o).map (·.freight_value)).sum
      avg_item_price :=
        ((itemsGroup items o).map (·.price)).sum / ((itemsGroup items o).length : ℚ) }

/-- The group of payment rows of one order. -/
def paymentsGroup (ps : List PaymentRow) (o : ℕ) : List PaymentRow :=
  ps.filter (·.order_id == o)

/-- One row of `payments_agg`: summed payment value and modal payment type. -/
structure PaymentsAggRow where
  order_id : ℕ
  payment_value : ℚ
  payment_type : ℕ
deriving DecidableEq, Repr, Inhabited

/-- `self.payments.groupby("order_id").agg(payment_value=sum,
payment_type=lambda x: x.mode()[0])`: `none` models the `KeyError` the
lambda raises on a group whose `payment_type` entries are all missing. -/
def paymentsAgg (ps : List PaymentRow) : Option (List PaymentsAggRow) :=
  traverseGroups
    (fun o =>
      match modeFirst ((paymentsGroup ps o).filterMap (·.payment_type)) with
      | some t =>
          some { order_id := o
                 payment_value := ((paymentsGroup ps o).map (·.payment_value)).sum
                 payment_type := t }
      | none => none)
    (groupKeys (ps.map (·.order_id)))

/-- The group of review rows of one order. -/
def reviewsGroup (rs : List ReviewRow) (o : ℕ) : List ReviewRow :=
  rs.filter (·.order_id == o)

/-- One row of `reviews_agg`: mean review score of the order. -/
structure ReviewsAggRow where
  order_id : ℕ
  review_score : ℚ
deriving DecidableEq, Repr, Inhabited

/-- `self.reviews.groupby("order_id").agg(review_score=mean)`. -/
def reviewsAgg (rs : List ReviewRow) : List ReviewsAggRow :=
  (groupKeys (rs.map (·.order_id))).map fun o =>
    { order_id := o
      review_score :=
        ((reviewsGroup rs o).map (·.review_score)).sum / ((reviewsGroup rs o).length : ℚ) }

/-- The merge of filtered orders with the `customers` table
(`orders.merge(self.customers, on="customer_id", how="left")`). -/
def mergeCustomers (orders : List OrderRow) (cs : List CustomerRow) : List FactRow :=
  leftMerge orders cs (·.customer_id) (·.customer_id) fun o c =>
    { order_id := o.order_id
      customer_id := o.customer_id
      order_status := o.order_status
      order_purchase_timestamp := o.order_purchase_timestamp
      order_delivered_customer_date := o.order_delivered_customer_date
      customer_unique_id := c.map (·.customer_unique_id)
      items_count := none
      total_price := none
      total_freight := none
      avg_item_price := none
      payment_value := none
      payment_type := none
      review_score := none }

/-- `df.merge(items_agg, on="order_id", how="left")`. -/
def mergeItems (df : List FactRow) (ia : List ItemsAggRow) : List FactRow :=
  leftMerge df ia (·.order_id) (·.order_id) fun r x =>
    { r with
      items_count := x.map (·.items_count)
      total_price := x.map (·.total_price)
      total_freight := x.map (·.total_freight)
      avg_item_price := x.map (·.avg_item_price) }

/-- `df.merge(payments_agg, on="order_id", how="left")`. -/
def mergePayments (df : List FactRow) (pa : List PaymentsAggRow) : List FactRow :=
  leftMerge df pa (·.order_id) (·.order_id) fun r x =>
    { r with
      payment_value := x.map (·.payment_value)
      payment_type := x.map (·.payment_type) }

/-- `df.merge(reviews_agg, on="order_id", how="left")`. -/
def mergeReviews (df : List FactRow) (ra : List ReviewsAggRow) : List FactRow :=
  leftMerge df ra (·.order_id) (·.order_id) fun r x =>
    { r with review_score := x.map (·.review_score) }

/-- `SilverProcessor.build_order_level`: keep only delivered orders, then
left-join customers, aggregated items, aggregated payments and aggregated
reviews.  `none` models the exception the payments aggregation raises on an
all-missing `payment_type` group (timestamp parsing is the identity here:
timestamps are already temporal values). -/
def build_order_level (orders : List OrderRow) (customers : List CustomerRow)
    (order_items : List ItemRow) (payments : List PaymentRow)
    (reviews : List ReviewRow) : Option (List FactRow) :=
  match paymentsAgg payments with
  | none => none
  | some pa =>
      some (mergeReviews
        (mergePayments
          (mergeItems
            (mergeCustomers (orders.filter (fun o => o.order_status == "delivered")) customers)
            (itemsAgg order_items))
          pa)
        (reviewsAgg reviews))

/-- A fact row after `SilverProcessor.add_features`.  The pure calendar
decompositions (year, month, day, day_of_week, hour, quarter, is_weekend)
are independent per-row functions of the purchase timestamp referenced by no
claim and are omitted. -/
structure FeatRow where
  order_id : ℕ
  customer_id : ℕ
  order_status : String
  order_purchase_timestamp : ℕ
  order_delivered_customer_date : ℕ
  customer_unique_id : Option ℕ
  items_count : Option ℕ
  total_price : Option ℚ
  total_freight : Option ℚ
  avg_item_price : Option ℚ
  payment_value : Option ℚ
  payment_type : Option ℕ
  review_score : Option ℚ
  delivery_days : ℤ
  order_value : PFloat
  freight_ratio : PFloat
  order_value_category : Option (Fin 4)
  review_category : Option (Fin 4)
deriving DecidableEq, Repr, Inhabited

/-- The order-value column `df["total_price"] + df["total_freight"]` of the
fact table (missing + anything is missing). -/
def orderValueCol (df : List FactRow) : List PFloat :=
  df.map fun r => (PFloat.ofOption r.total_price).add (PFloat.ofOption r.total_freight)

/-- The per-row column derivations of `SilverProcessor.add_features`, given
the order-value column `ov` of the whole frame (whose quartiles the
order-value category needs). -/
def featurize (ov : List PFloat) (r : FactRow) : FeatRow :=
  { order_id := r.order_id
    customer_id := r.customer_id
    order_status := r.order_status
    order_purchase_timestamp := r.order_purchase_timestamp
    order_delivered_customer_date := r.order_delivered_customer_date
    customer_unique_id := r.customer_unique_id
    items_count := r.items_count
    total_price := r.total_price
    total_freight := r.total_freight
    avg_item_price := r.avg_item_price
    payment_value := r.payment_value
    payment_type := r.payment_type
    review_score := r.review_score
    delivery_days :=
      Int.fdiv ((r.order_delivered_customer_date : ℤ) - (r.order_purchase_timestamp : ℤ)) 86400
    order_value := (PFloat.ofOption r.total_price).add (PFloat.ofOption r.total_freight)
    freight_ratio :=
      (PFloat.ofOption r.total_freight).div
        ((PFloat.ofOption r.total_price).add (PFloat.ofOption r.total_freight))
    order_value_category :=
      qcut4Label ov ((PFloat.ofOption r.total_price).add (PFloat.ofOption r.total_freight))
    review_category := review_cut (PFloat.ofOption r.review_score) }

/-- `SilverProcessor.add_features`: delivery days (`Timedelta.dt.days`
floors, hence `Int.fdiv`), order value, freight ratio, and the two
categorical bucketings.  `none` models the `ValueError` `pd.qcut(order_value,
4)` raises when the computed quartile edges are not distinct. -/
def add_features (df : List FactRow) : Option (List FeatRow) :=
  if qcut4Ok (orderValueCol df) then some (df.map (featurize (orderValueCol df)))
  else none

/-- The distinct customer keys of the feature table: `groupby
("customer_unique_id")` drops rows with a missing key and sorts the rest. -/
def custKeys (df : List FeatRow) : List ℕ :=
  groupKeys (df.filterMap (·.customer_unique_id))

/-- The rows of one customer's group, in their original order. -/
def custGroup (df : List FeatRow) (k : ℕ) : List FeatRow :=
  df.filter (fun r => r.customer_unique_id == some k)

/-- Maximum of a timestamp column (`Series.max()` of a nonempty column). -/
def colMax (l : List ℕ) : ℕ := (l.max?).getD 0

/-- Minimum of a timestamp column (`Series.min()` of a nonempty column). -/
def colMin (l : List ℕ) : ℕ := (l.min?).getD 0

/-- `snapshot_date = df["order_purchase_timestamp"].max() +
pd.Timedelta(days=1)` of `SilverProcessor.build_rfm`. -/
def snapshot_date (df : List FeatRow) : ℕ :=
  colMax (df.map (·.order_purchase_timestamp)) + 86400

/-- Recency of one customer: `(snapshot_date - x.max()).days`, the whole-day
floor of the gap between the snapshot and the customer's latest purchase. -/
def recencyOf (df : List FeatRow) (k : ℕ) : ℕ :=
  (snapshot_date df - colMax ((custGroup df k).map (·.order_purchase_timestamp))) / 86400

/-- Frequency of one customer: `("order_id", "nunique")`. -/
def frequencyOf (df : List FeatRow) (k : ℕ) : ℕ :=
  (groupKeys ((custGroup df k).map (·.order_id))).length

/-- Monetary of one customer: `("order_value", "sum")`; pandas `sum` skips
NaN entries (an all-NaN group sums to 0). -/
def monetaryOf (df : List FeatRow) (k : ℕ) : ℚ :=
  (finiteVals ((custGroup df k).map (·.order_value))).sum

/-- The recency column of the aggregated frame, in group-key order. -/
def recencyCol (df : List FeatRow) : List ℚ :=
  (custKeys df).map (fun k => (recencyOf df k : ℚ))

/-- The frequency column of the aggregated frame, in group-key order. -/
def frequencyCol (df : List FeatRow) : List ℚ :=
  (custKeys df).map (fun k => (frequencyOf df k : ℚ))

/-- The monetary column of the aggregated frame, in group-key order. -/
def monetaryCol (df : List FeatRow) : List ℚ :=
  (custKeys df).map (monetaryOf df)

/-- The label list `[5, 4, 3, 2, 1]` of the R quintile score. -/
def rLabel : Fin 5 → ℕ := fun i => 5 - i.val

/-- The label list `[1, 2, 3, 4, 5]` of the F and M quintile scores. -/
def fmLabel : Fin 5 → ℕ := fun i => i.val + 1

/-- `rfm["R"] = pd.qcut(rfm["recency"], 5, labels=[5,4,3,2,1])`. -/
def rCol (df : List FeatRow) : Option (List ℕ) := qcut5 (recencyCol df) rLabel

/-- `rfm["F"] = pd.qcut(rfm["frequency"].rank(method="first"), 5,
labels=[1,2,3,4,5])`. -/
def fCol (df : List FeatRow) : Option (List ℕ) :=
  qcut5 (rankFirst (frequencyCol df)) fmLabel

/-- `rfm["M"] = pd.qcut(rfm["monetary"], 5, labels=[1,2,3,4,5])`. -/
def mCol (df : List FeatRow) : Option (List ℕ) := qcut5 (monetaryCol df) fmLabel

/-- One row of the RFM table, one per customer. -/
structure RfmRow where
  customer_unique_id : ℕ
  recency : ℕ
  frequency : ℕ
  monetary : ℚ
  R : ℕ
  F : ℕ
  M : ℕ
  RFM_SCORE : ℕ
deriving DecidableEq, Repr, Inhabited

/-- `SilverProcessor.build_rfm`: group by customer, aggregate recency,
frequency and monetary, quintile-score each, and sum the scores.  `none`
models the `ValueError` any of the three `pd.qcut` calls raises on
non-distinct edges. -/
def build_rfm (df : List FeatRow) : Option (List RfmRow) :=
  match rCol df, fCol df, mCol df with
  | some rs, some fs, some ms =>
      some ((List.range (custKeys df).length).map fun i =>
        { customer_unique_id := (custKeys df).getD i 0
          recency := recencyOf df ((custKeys df).getD i 0)
          frequency := frequencyOf df ((custKeys df).getD i 0)
          monetary := monetaryOf df ((custKeys df).getD i 0)
          R := rs.getD i 0
          F := fs.getD i 0
          M := ms.getD i 0
          RFM_SCORE := rs.getD i 0 + fs.getD i 0 + ms.getD i 0 })
  | _, _, _ => none

/-- One row of the customer summary table, one per customer. -/
structure SummaryRow where
  customer_unique_id : ℕ
  total_orders : ℕ
  total_spend : ℚ
  avg_order_value : PFloat
  first_order : ℕ
  last_order : ℕ
  days_active : ℕ
  orders_per_month : ℚ
deriving DecidableEq, Repr, Inhabited

/-- `SilverProcessor.build_customer_summary`: per-customer lifetime
aggregates; `days_active` in whole days, and `orders_per_month =
total_orders / (days_active / 30).replace(0, 1)` — `.replace` substitutes a
denominator that equals 0 exactly (and no other value) by 1. -/
def build_customer_summary (df : List FeatRow) : List SummaryRow :=
  (custKeys df).map fun k =>
    { customer_unique_id := k
      total_orders := (groupKeys ((custGroup df k).map (·.order_id))).length
      total_spend := (finiteVals ((custGroup df k).map (·.order_value))).sum
      avg_order_value :=
        if (finiteVals ((custGroup df k).map (·.order_value))).length = 0 then PFloat.nan
        else PFloat.num ((finiteVals ((custGroup df k).map (·.order_value))).sum /
          ((finiteVals ((custGroup df k).map (·.order_value))).length : ℚ))
      first_order := colMin ((custGroup df k).map (·.order_purchase_timestamp))
      last_order := colMax ((custGroup df k).map (·.order_purchase_timestamp))
      days_active :=
        (colMax ((custGroup df k).map (·.order_purchase_timestamp)) -
          colMin ((custGroup df k).map (·.order_purchase_timestamp))) / 86400
      orders_per_month :=
        ((groupKeys ((custGroup df k).map (·.order_id))).length : ℚ) /
          (if (((colMax ((custGroup df k).map (·.order_purchase_timestamp)) -
                  colMin ((custGroup df k).map (·.order_purchase_timestamp))) / 86400 : ℕ) : ℚ)
                / 30 = 0 then 1
           else (((colMax ((custGroup df k).map (·.order_purchase_timestamp)) -
                  colMin ((custGroup df k).map (·.order_purchase_timestamp))) / 86400 : ℕ) : ℚ)
                / 30) }

/-- Modelled from the spec: the formula §4.4 of the specification states for
the order cadence, `total_orders / max(days_active / 30, 1)`.  Stated only to
compare with what `build_customer_summary` computes. -/
def orders_per_month_spec (total_orders days_active : ℕ) : ℚ :=
  (total_orders : ℚ) / max ((days_active : ℚ) / 30) 1

/-- `SilverProcessor.run` restricted to its in-memory transformations (the
Parquet round-trips are collaborator I/O): order-level build, feature
derivation, RFM and customer summary. -/
def silver_run (orders : List OrderRow) (customers : List CustomerRow)
    (order_items : List ItemRow) (payments : List PaymentRow)
    (reviews : List ReviewRow) :
    Option (List FeatRow × List RfmRow × List SummaryRow) :=
  match build_order_level orders customers order_items payments reviews with
  | none => none
  | some df0 =>
      match add_features df0 with
      | none => none
      | some df =>
          match build_rfm df with
          | none => none
          | some rfm => some (df, rfm, build_customer_summary df)

/-! The gold-layer churn script `scripts/build_churn_dataset.py`, a consumer
of the silver orders, customers and rfm tables. -/

/-- `dataset_end = orders["order_purchase_timestamp"].max()` (the
re-parsing `pd.to_datetime` is the identity on temporal values). -/
def dataset_end (orders : List FeatRow) : ℕ :=
  colMax (orders.map (·.order_purchase_timestamp))

/-- One row of the `last_order` frame with its churn label. -/
structure ChurnRow where
  customer_unique_id : ℕ
  days_since_last_order : ℕ
  churn : ℕ
deriving DecidableEq, Repr, Inhabited

/-- The churn-label block: per customer, the latest purchase, the whole-day
gap to `dataset_end`, and `churn = (days_since_last_order > 90).astype(int)`. -/
def last_order_churn (orders : List FeatRow) : List ChurnRow :=
  (custKeys orders).map fun k =>
    { customer_unique_id := k
      days_since_last_order :=
        (dataset_end orders - colMax ((custGroup orders k).map (·.order_purchase_timestamp))) / 86400
      churn :=
        if 90 <
            (dataset_end orders -
              colMax ((custGroup orders k).map (·.order_purchase_timestamp))) / 86400
        then 1 else 0 }

/-- Mean of the present entries of a nullable column followed by
`fillna(0)`: an empty (all-missing) group, whose mean is NaN, becomes 0. -/
def meanFill0 (l : List (Option ℚ)) : ℚ :=
  if (l.filterMap id).length = 0 then 0
  else (l.filterMap id).sum / ((l.filterMap id).length : ℚ)

/-- One row of the `cust_features` frame recomputed by the churn script from
the silver orders table.  The remaining aggregate columns of the script
(`std_order_value`, `avg_items_per_order`, `avg_delivery_days`,
`avg_review_score`) are further independent per-group scalars referenced by
no claim and are omitted. -/
structure CustFeatRow where
  customer_unique_id : ℕ
  order_count : ℕ
  total_spend : ℚ
  avg_order_value : ℚ
  total_items : ℕ
  avg_freight_ratio : ℚ
  single_purchase_customer : ℕ
deriving DecidableEq, Repr, Inhabited

/-- `orders.groupby("customer_unique_id").agg(...)` of the churn script,
with `single_purchase_customer = (order_count == 1).astype(int)` and the
final `fillna(0)` applied to the NaN means. -/
def cust_features (orders : List FeatRow) : List CustFeatRow :=
  (custKeys orders).map fun k =>
    { customer_unique_id := k
      order_count := (groupKeys ((custGroup orders k).map (·.order_id))).length
      total_spend := (finiteVals ((custGroup orders k).map (·.order_value))).sum
      avg_order_value :=
        meanFill0 (((custGroup orders k).map (·.order_value)).map PFloat.toNum)
      total_items := (((custGroup orders k).map (·.items_count)).filterMap id).sum
      avg_freight_ratio :=
        meanFill0 (((custGroup orders k).map (·.freight_ratio)).map PFloat.toNum)
      single_purchase_customer :=
        if (groupKeys ((custGroup orders k).map (·.order_id))).length = 1 then 1 else 0 }

/-- One row of the final `customer_churn_features` table.  The column groups
brought in by the three merges are kept as nested records (pandas would
suffix overlapping column names with `_x`/`_y`); the two left-joined groups
are missing when their table has no row for the customer. -/
structure GoldRow where
  customer_unique_id : ℕ
  feat : CustFeatRow
  summary : Option SummaryRow
  rfm : Option RfmRow
  churn : ℕ
deriving DecidableEq, Repr, Inhabited

/-- The final dataset of the churn script: `cust_features` left-merged with
the silver customers table, left-merged with the rfm table, then
inner-merged (the default `how`) with the churn labels, all on
`customer_unique_id`. -/
def customer_churn_features (orders : List FeatRow) (customers : List SummaryRow)
    (rfm : List RfmRow) : List GoldRow :=
  innerMerge
    (leftMerge
      (leftMerge (cust_features orders) customers
        (·.customer_unique_id) (·.customer_unique_id) (fun a b => (a, b)))
      rfm
      (fun x => x.1.customer_unique_id) (·.customer_unique_id) (fun a b => (a.1, a.2, b)))
    (last_order_churn orders)
    (fun x => x.1.customer_unique_id) (·.customer_unique_id)
    (fun a b =>
      { customer_unique_id := a.1.customer_unique_id
        feat := a.1
        summary := a.2.1
        rfm := a.2.2
        churn := b.churn })

/-! Shared lemmas about the embedded pandas primitives. -/

theorem groupKeys_nodup (l : List ℕ) : (groupKeys l).Nodup :=
  List.nodup_dedup _

theorem mem_groupKeys {a : ℕ} {l : List ℕ} : a ∈ groupKeys l ↔ a ∈ l := by
  unfold groupKeys
  rw [List.mem_dedup]
  exact (List.perm_insertionSort (· ≤ ·) l).mem_iff

theorem groupKeys_sorted (l : List ℕ) : List.Sorted (· < ·) (groupKeys l) := by
  have hs : List.Sorted (· ≤ ·) (l.insertionSort (· ≤ ·)) :=
    List.sorted_insertionSort (· ≤ ·) l
  have hle : List.Sorted (· ≤ ·) (groupKeys l) :=
    List.Pairwise.sublist (List.dedup_sublist _) hs
  exact ((List.Pairwise.and hle (groupKeys_nodup l)).imp
    (fun h => lt_of_le_of_ne h.1 h.2))

/-! Claim C1.  The spec states `orders_per_month = total_orders /
max(days_active / 30, 1)`, flooring the denominator at 1 for every customer
with `0 < days_active < 30`.  The code divides by `(days_active /
30).replace(0, 1)`, which substitutes 1 only when the denominator is exactly
0, i.e. only when `days_active = 0`; for `0 < days_active < 30` the
denominator stays below 1 and `orders_per_month` exceeds `total_orders`. -/

/-- A minimal fact row used by concrete tables: a delivered order of a given
order id, customer key, purchase timestamp and order value. -/
def sampleFeat (oid k t : ℕ) (ov : PFloat) : FeatRow :=
  { order_id := oid
    customer_id := k
    order_status := "delivered"
    order_purchase_timestamp := t
    order_delivered_customer_date := t + 86400
    customer_unique_id := some k
    items_count := some 1
    total_price := none
    total_freight := none
    avg_item_price := none
    payment_value := none
    payment_type := none
    review_score := none
    delivery_days := 1
    order_value := ov
    freight_ratio := PFloat.nan
    order_value_category := none
    review_category := none }

/-- Customer 7 with two orders 15 days apart: `days_active = 15`. -/
def tableC1 : List FeatRow :=
  [sampleFeat 1 7 0 (PFloat.num 100), sampleFeat 2 7 (15 * 86400) (PFloat.num 50)]

/-- C1 (counterexample): on a customer with two orders and `days_active =
15`, the code produces `orders_per_month = 4`, while the spec's formula
`total_orders / max(days_active/30, 1)` gives 2; in particular
`orders_per_month` exceeds `total_orders`, which the claim rules out. -/
theorem claim_C1_counterexample :
    ((build_customer_summary tableC1).headD default).total_orders = 2 ∧
    ((build_customer_summary tableC1).headD default).days_active = 15 ∧
    ((build_customer_summary tableC1).headD default).orders_per_month = 4 ∧
    orders_per_month_spec 2 15 = 2 ∧
    ¬ ((build_customer_summary tableC1).headD default).orders_per_month ≤
        (((build_customer_summary tableC1).headD default).total_orders : ℚ) := by
  decide

/-- C1 (amended): for every customer-summary row, `orders_per_month` equals
`total_orders` divided by `days_active / 30`, except that a denominator
equal to 0 (that is, `days_active = 0`) is replaced by 1; consequently for
`0 < days_active < 30` (and at least one order) `orders_per_month` strictly
exceeds `total_orders` rather than being capped by it. -/
theorem claim_C1 (df : List FeatRow) (row : SummaryRow)
    (h : row ∈ build_customer_summary df) :
    row.orders_per_month =
      (row.total_orders : ℚ) /
        (if row.days_active = 0 then 1 else (row.days_active : ℚ) / 30) ∧
    (0 < row.days_active → row.days_active < 30 → 1 ≤ row.total_orders →
      (row.total_orders : ℚ) < row.orders_per_month) := by
  unfold build_customer_summary at h
  rw [List.mem_map] at h
  obtain ⟨k, hk, hrow⟩ := h
  subst hrow
  constructor
  · simp only
    have hzero : ∀ d : ℕ, ((d : ℚ) / 30 = 0) ↔ d = 0 := by
      intro d
      rw [div_eq_zero_iff]
      norm_num
    by_cases hd :
        (colMax ((custGroup df k).map (·.order_purchase_timestamp)) -
          colMin ((custGroup df k).map (·.order_purchase_timestamp))) / 86400 = 0
    · rw [if_pos ((hzero _).mpr hd), if_pos hd]
    · rw [if_neg (fun hc => hd ((hzero _).mp hc)), if_neg hd]
  · intro hd0 hd30 ht
    simp only at hd0 hd30 ht ⊢
    set d : ℕ :=
      (colMax ((custGroup df k).map (·.order_purchase_timestamp)) -
        colMin ((custGroup df k).map (·.order_purchase_timestamp))) / 86400 with hd
    set t : ℕ := (groupKeys ((custGroup df k).map (·.order_id))).length with htdef
    have hdq : (0 : ℚ) < (d : ℚ) / 30 := by
      apply div_pos
      · exact_mod_cast hd0
      · norm_num
    have hne : ¬ ((d : ℚ) / 30 = 0) := ne_of_gt hdq
    rw [if_neg hne]
    have htq : (0 : ℚ) < (t : ℚ) := by exact_mod_cast ht
    rw [lt_div_iff₀ hdq]
    have hlt1 : (d : ℚ) / 30 < 1 := by
      rw [div_lt_one (by norm_num : (0:ℚ) < 30)]
      exact_mod_cast hd30
    calc (t : ℚ) * ((d : ℚ) / 30) < (t : ℚ) * 1 := by
          exact mul_lt_mul_of_pos_left hlt1 htq
      _ = (t : ℚ) := mul_one _

/-- C1 witness: the amended statement evaluated on the concrete two-order
customer of `tableC1`. -/
theorem claim_C1_witness :
    ((build_customer_summary tableC1).headD default).orders_per_month =
      ((((build_customer_summary tableC1).headD default).total_orders : ℕ) : ℚ) /
        (if ((build_customer_summary tableC1).headD default).days_active = 0 then 1
         else ((((build_customer_summary tableC1).headD default).days_active : ℕ) : ℚ) / 30) ∧
    (0 < ((build_customer_summary tableC1).headD default).days_active →
      ((build_customer_summary tableC1).headD default).days_active < 30 →
      1 ≤ ((build_customer_summary tableC1).headD default).total_orders →
      ((((build_customer_summary tableC1).headD default).total_orders : ℕ) : ℚ) <
        ((build_customer_summary tableC1).headD default).orders_per_month) :=
  claim_C1 tableC1 ((build_customer_summary tableC1).headD default) (by decide)

/-! Claim C3: the churn label of the gold script. -/

/-- Three single-order customers whose last orders are 91, 90 and 0 days
before the dataset-wide maximum purchase timestamp. -/
def tableC3 : List FeatRow :=
  [sampleFeat 1 1 (91 * 86400) (PFloat.num 10),
   sampleFeat 2 2 0 (PFloat.num 20),
   sampleFeat 3 3 86400 (PFloat.num 30)]

/-- C3: every churn row belongs to a customer key of the orders table; its
day count is the whole-day floor of the gap between the dataset-wide maximum
purchase timestamp and the customer's latest purchase; churn is 1 exactly
when that count is strictly greater than 90, so a gap of exactly 90 days
gives churn 0 and a gap of exactly 91 days gives churn 1. -/
theorem claim_C3 (orders : List FeatRow) (e : ChurnRow)
    (h : e ∈ last_order_churn orders) :
    ∃ k ∈ custKeys orders,
      e.customer_unique_id = k ∧
      e.days_since_last_order =
        (dataset_end orders -
          colMax ((custGroup orders k).map (·.order_purchase_timestamp))) / 86400 ∧
      (e.churn = 1 ↔ 90 < e.days_since_last_order) ∧
      (e.churn = 0 ↔ e.days_since_last_order ≤ 90) ∧
      (dataset_end orders -
          colMax ((custGroup orders k).map (·.order_purchase_timestamp)) = 90 * 86400 →
        e.churn = 0) ∧
      (dataset_end orders -
          colMax ((custGroup orders k).map (·.order_purchase_timestamp)) = 91 * 86400 →
        e.churn = 1) := by
  unfold last_order_churn at h
  rw [List.mem_map] at h
  obtain ⟨k, hk, he⟩ := h
  subst he
  refine ⟨k, hk, rfl, rfl, ?_, ?_, ?_, ?_⟩
  · simp only
    by_cases hgt :
        90 < (dataset_end orders -
          colMax ((custGroup orders k).map (·.order_purchase_timestamp))) / 86400
    · rw [if_pos hgt]; exact ⟨fun _ => hgt, fun _ => rfl⟩
    · rw [if_neg hgt]; exact ⟨fun hc => absurd hc (by norm_num), fun hc => absurd hc hgt⟩
  · simp only
    by_cases hgt :
        90 < (dataset_end orders -
          colMax ((custGroup orders k).map (·.order_purchase_timestamp))) / 86400
    · rw [if_pos hgt]
      exact ⟨fun hc => absurd hc (by norm_num), fun hc => absurd hgt (not_lt.mpr hc)⟩
    · rw [if_neg hgt]; exact ⟨fun _ => not_lt.mp hgt, fun _ => rfl⟩
  · intro hgap
    simp only [hgap]
    rw [Nat.mul_div_cancel _ (by norm_num : 0 < 86400)]
    norm_num
  · intro hgap
    simp only [hgap]
    rw [Nat.mul_div_cancel _ (by norm_num : 0 < 86400)]
    norm_num

/-- C3 witness: the churn row of customer 2 of `tableC3`, whose last order is
exactly 91 days before the dataset maximum (its churn label is 1). -/
theorem claim_C3_witness :
    ∃ k ∈ custKeys tableC3,
      ((last_order_churn tableC3).getD 1 default).customer_unique_id = k ∧
      ((last_order_churn tableC3).getD 1 default).days_since_last_order =
        (dataset_end tableC3 -
          colMax ((custGroup tableC3 k).map (·.order_purchase_timestamp))) / 86400 ∧
      (((last_order_churn tableC3).getD 1 default).churn = 1 ↔
        90 < ((last_order_churn tableC3).getD 1 default).days_since_last_order) ∧
      (((last_order_churn tableC3).getD 1 default).churn = 0 ↔
        ((last_order_churn tableC3).getD 1 default).days_since_last_order ≤ 90) ∧
      (dataset_end tableC3 -
          colMax ((custGroup tableC3 k).map (·.order_purchase_timestamp)) = 90 * 86400 →
        ((last_order_churn tableC3).getD 1 default).churn = 0) ∧
      (dataset_end tableC3 -
          colMax ((custGroup tableC3 k).map (·.order_purchase_timestamp)) = 91 * 86400 →
        ((last_order_churn tableC3).getD 1 default).churn = 1) :=
  claim_C3 tableC3 ((last_order_churn tableC3).getD 1 default) (by decide)

/-! Claim C5: only delivered orders reach the fact table. -/

theorem mem_leftMerge {α β γ : Type} {L : List α} {R : List β} {kL : α → ℕ}
    {kR : β → ℕ} {comb : α → Option β → γ} {c : γ}
    (h : c ∈ leftMerge L R kL kR comb) : ∃ a ∈ L, ∃ ob : Option β, c = comb a ob := by
  unfold leftMerge at h
  rw [List.mem_flatMap] at h
  obtain ⟨a, ha, hc⟩ := h
  rcases hf : R.filter (fun b => kR b == kL a) with _ | ⟨b, bs⟩
  · rw [hf] at hc
    simp only [List.mem_singleton] at hc
    exact ⟨a, ha, none, hc⟩
  · rw [hf] at hc
    simp only [List.mem_map] at hc
    obtain ⟨x, _, hcx⟩ := hc
    exact ⟨a, ha, some x, hcx.symm⟩

/-- Tracing one fact row of `build_order_level` back through the four left
merges to the delivered order it came from: its order id and status are the
source order's. -/
theorem fact_row_source {orders : List OrderRow} {customers : List CustomerRow}
    {order_items : List ItemRow} {payments : List PaymentRow}
    {reviews : List ReviewRow} {out : List FactRow} {row : FactRow}
    (hout : build_order_level orders customers order_items payments reviews = some out)
    (hrow : row ∈ out) :
    ∃ o ∈ orders.filter (fun o => o.order_status == "delivered"),
      row.order_id = o.order_id ∧ row.order_status = o.order_status := by
  unfold build_order_level at hout
  rcases hpa : paymentsAgg payments with _ | pa
  · rw [hpa] at hout; exact absurd hout (by simp)
  · rw [hpa] at hout
    have hrev : out =
        mergeReviews
          (mergePayments
            (mergeItems
              (mergeCustomers (orders.filter (fun o => o.order_status == "delivered")) customers)
              (itemsAgg order_items))
            pa)
          (reviewsAgg reviews) := by
      exact (Option.some_injective _ hout).symm
    rw [hrev] at hrow
    obtain ⟨r3, hr3, ob4, hc4⟩ := mem_leftMerge hrow
    obtain ⟨r2, hr2, ob3, hc3⟩ := mem_leftMerge hr3
    obtain ⟨r1, hr1, ob2, hc2⟩ := mem_leftMerge hr2
    obtain ⟨o, ho, ob1, hc1⟩ := mem_leftMerge hr1
    refine ⟨o, ho, ?_, ?_⟩
    · subst hc4 hc3 hc2 hc1
      cases ob4 <;> cases ob3 <;> cases ob2 <;> cases ob1 <;> rfl
    · subst hc4 hc3 hc2 hc1
      cases ob4 <;> cases ob3 <;> cases ob2 <;> cases ob1 <;> rfl

/-- C5: every row of the order-level fact table has order_status
"delivered", and its order id is one of the delivered orders' ids — orders
of any other status are removed by the filter that precedes every join. -/
theorem claim_C5 (orders : List OrderRow) (customers : List CustomerRow)
    (order_items : List ItemRow) (payments : List PaymentRow)
    (reviews : List ReviewRow) (out : List FactRow) (row : FactRow)
    (hout : build_order_level orders customers order_items payments reviews = some out)
    (hrow : row ∈ out) :
    row.order_status = "delivered" ∧
    row.order_id ∈
      (orders.filter (fun o => o.order_status == "delivered")).map (·.order_id) := by
  obtain ⟨o, ho, hid, hst⟩ := fact_row_source hout hrow
  have hdel : o.order_status = "delivered" := by
    have := (List.mem_filter.mp ho).2
    exact eq_of_beq this
  refine ⟨hst.trans hdel, ?_⟩
  rw [List.mem_map]
  exact ⟨o, ho, hid.symm⟩

/-- A two-order bronze sample: order 1 delivered, order 2 shipped. -/
def ordersC5 : List OrderRow :=
  [⟨1, 11, "delivered", 0, 2 * 86400⟩, ⟨2, 12, "shipped", 86400, 3 * 86400⟩]

/-- Bronze companions of `ordersC5`. -/
def customersC5 : List CustomerRow := [⟨11, 101⟩]

/-- Item rows of `ordersC5`. -/
def itemsC5 : List ItemRow := [⟨1, 1, 100, 10⟩, ⟨1, 2, 50, 5⟩]

/-- Payment rows of `ordersC5`. -/
def paymentsC5 : List PaymentRow := [⟨1, 165, some 0⟩]

/-- Review rows of `ordersC5`. -/
def reviewsC5 : List ReviewRow := [⟨1, 4⟩]

/-- C5 witness: the single produced fact row of the concrete bronze sample
is the delivered order 1. -/
theorem claim_C5_witness :
    (((build_order_level ordersC5 customersC5 itemsC5 paymentsC5 reviewsC5).getD []).headD
        default).order_status = "delivered" ∧
    (((build_order_level ordersC5 customersC5 itemsC5 paymentsC5 reviewsC5).getD []).headD
        default).order_id ∈
      (ordersC5.filter (fun o => o.order_status == "delivered")).map (·.order_id) :=
  claim_C5 ordersC5 customersC5 itemsC5 paymentsC5 reviewsC5
    ((build_order_level ordersC5 customersC5 itemsC5 paymentsC5 reviewsC5).getD [])
    (((build_order_level ordersC5 customersC5 itemsC5 paymentsC5 reviewsC5).getD []).headD
      default)
    (by decide) (by decide)

/-! Claim C8: order_value and freight_ratio, and the zero-denominator case. -/

/-- C8: for every fact row (with the nonnegative prices and freights the
data carries), `add_features` computes `order_value = total_price +
total_freight` and `freight_ratio = total_freight / order_value` as float
columns; a row with `order_value = 0` gets a NaN (missing) `freight_ratio` —
the division raises nothing and does not substitute 0. -/
theorem claim_C8 (df : List FactRow) (out : List FeatRow)
    (hout : add_features df = some out)
    (hpos : ∀ r ∈ df, (∀ p, r.total_price = some p → 0 ≤ p) ∧
      (∀ f, r.total_freight = some f → 0 ≤ f))
    (i : ℕ) (hi : i < df.length) :
    out.length = df.length ∧
    (out.getD i default).order_value =
      (PFloat.ofOption (df.getD i default).total_price).add
        (PFloat.ofOption (df.getD i default).total_freight) ∧
    (out.getD i default).freight_ratio =
      (PFloat.ofOption (df.getD i default).total_freight).div
        ((out.getD i default).order_value) ∧
    ((out.getD i default).order_value = PFloat.num 0 →
      (out.getD i default).freight_ratio = PFloat.nan) ∧
    ((out.getD i default).order_value = PFloat.num 0 →
      (out.getD i default).freight_ratio ≠ PFloat.num 0) := by
  unfold add_features at hout
  by_cases hok : qcut4Ok (orderValueCol df)
  swap
  · rw [if_neg hok] at hout; exact absurd hout (by simp)
  rw [if_pos hok] at hout
  have hx : out = df.map (featurize (orderValueCol df)) :=
    (Option.some_injective _ hout).symm
  have hlen : out.length = df.length := by rw [hx, List.length_map]
  have hiout : i < out.length := by rw [hlen]; exact hi
  have hgout : out.getD i default = featurize (orderValueCol df) (df.getD i default) := by
    rw [List.getD_eq_getElem out default hiout, List.getD_eq_getElem df default hi]
    have : i < (df.map (featurize (orderValueCol df))).length := by
      rw [List.length_map]; exact hi
    calc out[i] = (df.map (featurize (orderValueCol df)))[i] := by
          congr 1
      _ = featurize (orderValueCol df) df[i] := List.getElem_map _
  have hmem : df.getD i default ∈ df := by
    rw [List.getD_eq_getElem df default hi]
    exact List.getElem_mem hi
  set r := df.getD i default with hr
  have hov : (out.getD i default).order_value =
      (PFloat.ofOption r.total_price).add (PFloat.ofOption r.total_freight) := by
    rw [hgout]; rfl
  have hfr : (out.getD i default).freight_ratio =
      (PFloat.ofOption r.total_freight).div
        ((PFloat.ofOption r.total_price).add (PFloat.ofOption r.total_freight)) := by
    rw [hgout]; rfl
  refine ⟨hlen, hov, by rw [hfr, hov], ?_, ?_⟩
  · intro h0
    rw [hov] at h0
    rcases hp : r.total_price with _ | p <;> rcases hf : r.total_freight with _ | f <;>
      rw [hp, hf] at h0 <;> simp [PFloat.ofOption, PFloat.add] at h0
    have hp0 : 0 ≤ p := ((hpos r hmem).1) p hp
    have hf0 : 0 ≤ f := ((hpos r hmem).2) f hf
    have hfz : f = 0 := by linarith
    have hpz : p = 0 := by linarith
    rw [hfr, hp, hf, hfz, hpz]
    simp [PFloat.ofOption, PFloat.add, PFloat.div]
  · intro h0
    rw [hov] at h0
    rcases hp : r.total_price with _ | p <;> rcases hf : r.total_freight with _ | f <;>
      rw [hp, hf] at h0 <;> simp [PFloat.ofOption, PFloat.add] at h0
    have hp0 : 0 ≤ p := ((hpos r hmem).1) p hp
    have hf0 : 0 ≤ f := ((hpos r hmem).2) f hf
    have hfz : f = 0 := by linarith
    have hpz : p = 0 := by linarith
    rw [hfr, hp, hf, hfz, hpz]
    simp [PFloat.ofOption, PFloat.add, PFloat.div]

/-- Five fact rows with distinct order values, the first having price and
freight both 0 (so order value 0). -/
def tableC8 : List FactRow :=
  [{ order_id := 1, customer_id := 1, order_status := "delivered",
     order_purchase_timestamp := 0, order_delivered_customer_date := 86400,
     customer_unique_id := some 1, items_count := some 1,
     total_price := some 0, total_freight := some 0, avg_item_price := some 0,
     payment_value := some 0, payment_type := some 0, review_score := some 4 },
   { order_id := 2, customer_id := 2, order_status := "delivered",
     order_purchase_timestamp := 0, order_delivered_customer_date := 86400,
     customer_unique_id := some 2, items_count := some 1,
     total_price := some 10, total_freight := some 2, avg_item_price := some 10,
     payment_value := some 12, payment_type := some 0, review_score := some 4 },
   { order_id := 3, customer_id := 3, order_status := "delivered",
     order_purchase_timestamp := 0, order_delivered_customer_date := 86400,
     customer_unique_id := some 3, items_count := some 1,
     total_price := some 20, total_freight := some 4, avg_item_price := some 20,
     payment_value := some 24, payment_type := some 0, review_score := some 4 },
   { order_id := 4, customer_id := 4, order_status := "delivered",
     order_purchase_timestamp := 0, order_delivered_customer_date := 86400,
     customer_unique_id := some 4, items_count := some 1,
     total_price := some 30, total_freight := some 6, avg_item_price := some 30,
     payment_value := some 36, payment_type := some 0, review_score := some 4 },
   { order_id := 5, customer_id := 5, order_status := "delivered",
     order_purchase_timestamp := 0, order_delivered_customer_date := 86400,
     customer_unique_id := some 5, items_count := some 1,
     total_price := some 40, total_freight := some 8, avg_item_price := some 40,
     payment_value := some 48, payment_type := some 0, review_score := some 4 }]

/-- C8 witness: on `tableC8`, whose first row has price 0 and freight 0, the
feature build succeeds and row 0 gets order value 0 and a NaN freight ratio. -/
theorem claim_C8_witness :
    ((add_features tableC8).getD []).length = tableC8.length ∧
    (((add_features tableC8).getD []).getD 0 default).order_value =
      (PFloat.ofOption (tableC8.getD 0 default).total_price).add
        (PFloat.ofOption (tableC8.getD 0 default).total_freight) ∧
    (((add_features tableC8).getD []).getD 0 default).freight_ratio =
      (PFloat.ofOption (tableC8.getD 0 default).total_freight).div
        ((((add_features tableC8).getD []).getD 0 default).order_value) ∧
    ((((add_features tableC8).getD []).getD 0 default).order_value = PFloat.num 0 →
      (((add_features tableC8).getD []).getD 0 default).freight_ratio = PFloat.nan) ∧
    ((((add_features tableC8).getD []).getD 0 default).order_value = PFloat.num 0 →
      (((add_features tableC8).getD []).getD 0 default).freight_ratio ≠ PFloat.num 0) :=
  claim_C8 tableC8 ((add_features tableC8).getD []) (by decide) (by decide) 0 (by decide)

/-! Claim C4: RFM_SCORE = R + F + M lies in [3, 15]. -/

theorem qcut5_eq_some {x : List ℚ} {ls : Fin 5 → ℕ} {out : List ℕ}
    (h : qcut5 x ls = some out) :
    out = x.map (fun v =>
      ls (bin5 (quantEdge x 1 5) (quantEdge x 2 5) (quantEdge x 3 5) (quantEdge x 4 5) v)) ∧
    quantEdge x 0 5 < quantEdge x 1 5 ∧ quantEdge x 1 5 < quantEdge x 2 5 ∧
    quantEdge x 2 5 < quantEdge x 3 5 ∧ quantEdge x 3 5 < quantEdge x 4 5 ∧
    quantEdge x 4 5 < quantEdge x 5 5 := by
  unfold qcut5 at h
  by_cases hc : quantEdge x 0 5 < quantEdge x 1 5 ∧ quantEdge x 1 5 < quantEdge x 2 5 ∧
      quantEdge x 2 5 < quantEdge x 3 5 ∧ quantEdge x 3 5 < quantEdge x 4 5 ∧
      quantEdge x 4 5 < quantEdge x 5 5
  · rw [if_pos hc] at h
    exact ⟨(Option.some_injective _ h).symm, hc⟩
  · rw [if_neg hc] at h
    exact absurd h (by simp)

theorem qcut5_length {x : List ℚ} {ls : Fin 5 → ℕ} {out : List ℕ}
    (h : qcut5 x ls = some out) : out.length = x.length := by
  rw [(qcut5_eq_some h).1, List.length_map]

theorem qcut5_getD {x : List ℚ} {ls : Fin 5 → ℕ} {out : List ℕ}
    (h : qcut5 x ls = some out) (i : ℕ) (hi : i < x.length) :
    out.getD i 0 =
      ls (bin5 (quantEdge x 1 5) (quantEdge x 2 5) (quantEdge x 3 5) (quantEdge x 4 5)
        (x.getD i 0)) := by
  obtain ⟨hout, _⟩ := qcut5_eq_some h
  subst hout
  have hmi : i < (x.map (fun v =>
      ls (bin5 (quantEdge x 1 5) (quantEdge x 2 5) (quantEdge x 3 5) (quantEdge x 4 5)
        v))).length := by
    rw [List.length_map]; exact hi
  rw [List.getD_eq_getElem _ 0 hmi, List.getD_eq_getElem x 0 hi, List.getElem_map]

/-- Every value of the R label list `[5,4,3,2,1]` lies in `{1,…,5}`. -/
theorem rLabel_bounds (j : Fin 5) : 1 ≤ rLabel j ∧ rLabel j ≤ 5 := by
  unfold rLabel
  omega

/-- Every value of the F/M label list `[1,2,3,4,5]` lies in `{1,…,5}`. -/
theorem fmLabel_bounds (j : Fin 5) : 1 ≤ fmLabel j ∧ fmLabel j ≤ 5 := by
  unfold fmLabel
  omega

theorem recencyCol_length (df : List FeatRow) :
    (recencyCol df).length = (custKeys df).length := List.length_map _ _

theorem frequencyCol_length (df : List FeatRow) :
    (frequencyCol df).length = (custKeys df).length := List.length_map _ _

theorem monetaryCol_length (df : List FeatRow) :
    (monetaryCol df).length = (custKeys df).length := List.length_map _ _

theorem rankFirst_length (x : List ℚ) : (rankFirst x).length = x.length :=
  List.length_mapIdx

/-- Destructuring a successful `build_rfm`: the three score columns exist
and the table is the indexed zip of keys, aggregates and scores. -/
theorem build_rfm_eq_some {df : List FeatRow} {rfm : List RfmRow}
    (h : build_rfm df = some rfm) :
    ∃ rs fs ms, rCol df = some rs ∧ fCol df = some fs ∧ mCol df = some ms ∧
      rfm = (List.range (custKeys df).length).map fun i =>
        { customer_unique_id := (custKeys df).getD i 0
          recency := recencyOf df ((custKeys df).getD i 0)
          frequency := frequencyOf df ((custKeys df).getD i 0)
          monetary := monetaryOf df ((custKeys df).getD i 0)
          R := rs.getD i 0
          F := fs.getD i 0
          M := ms.getD i 0
          RFM_SCORE := rs.getD i 0 + fs.getD i 0 + ms.getD i 0 } := by
  unfold build_rfm at h
  rcases hR : rCol df with _ | rs <;> rw [hR] at h
  · exact absurd h (by simp)
  rcases hF : fCol df with _ | fs <;> rw [hF] at h
  · exact absurd h (by simp)
  rcases hM : mCol df with _ | ms <;> rw [hM] at h
  · exact absurd h (by simp)
  exact ⟨rs, fs, ms, rfl, rfl, rfl, (Option.some_injective _ h).symm⟩

/-- C4: every RFM row has R, F and M in `{1,…,5}` and `RFM_SCORE = R + F +
M`, hence `RFM_SCORE ∈ [3, 15]`. -/
theorem claim_C4 (df : List FeatRow) (rfm : List RfmRow)
    (h : build_rfm df = some rfm) (row : RfmRow) (hrow : row ∈ rfm) :
    (1 ≤ row.R ∧ row.R ≤ 5) ∧ (1 ≤ row.F ∧ row.F ≤ 5) ∧ (1 ≤ row.M ∧ row.M ≤ 5) ∧
    row.RFM_SCORE = row.R + row.F + row.M ∧
    3 ≤ row.RFM_SCORE ∧ row.RFM_SCORE ≤ 15 := by
  obtain ⟨rs, fs, ms, hR, hF, hM, hx⟩ := build_rfm_eq_some h
  subst hx
  rw [List.mem_map] at hrow
  obtain ⟨i, hi, hrowi⟩ := hrow
  rw [List.mem_range] at hi
  subst hrowi
  have hRb : 1 ≤ rs.getD i 0 ∧ rs.getD i 0 ≤ 5 := by
    rw [qcut5_getD hR i (by rw [recencyCol_length]; exact hi)]
    exact rLabel_bounds _
  have hFb : 1 ≤ fs.getD i 0 ∧ fs.getD i 0 ≤ 5 := by
    rw [qcut5_getD hF i (by rw [rankFirst_length, frequencyCol_length]; exact hi)]
    exact fmLabel_bounds _
  have hMb : 1 ≤ ms.getD i 0 ∧ ms.getD i 0 ≤ 5 := by
    rw [qcut5_getD hM i (by rw [monetaryCol_length]; exact hi)]
    exact fmLabel_bounds _
  refine ⟨hRb, hFb, hMb, rfl, ?_, ?_⟩ <;> simp only <;> omega

/-- Five single-order customers with distinct recencies and order values. -/
def tableC4 : List FeatRow :=
  [sampleFeat 1 1 0 (PFloat.num 10),
   sampleFeat 2 2 (10 * 86400) (PFloat.num 20),
   sampleFeat 3 3 (20 * 86400) (PFloat.num 30),
   sampleFeat 4 4 (30 * 86400) (PFloat.num 40),
   sampleFeat 5 5 (40 * 86400) (PFloat.num 50)]

/-- C4 witness: the first RFM row of the concrete five-customer table. -/
theorem claim_C4_witness :
    (1 ≤ (((build_rfm tableC4).getD []).headD default).R ∧
      (((build_rfm tableC4).getD []).headD default).R ≤ 5) ∧
    (1 ≤ (((build_rfm tableC4).getD []).headD default).F ∧
      (((build_rfm tableC4).getD []).headD default).F ≤ 5) ∧
    (1 ≤ (((build_rfm tableC4).getD []).headD default).M ∧
      (((build_rfm tableC4).getD []).headD default).M ≤ 5) ∧
    (((build_rfm tableC4).getD []).headD default).RFM_SCORE =
      (((build_rfm tableC4).getD []).headD default).R +
        (((build_rfm tableC4).getD []).headD default).F +
        (((build_rfm tableC4).getD []).headD default).M ∧
    3 ≤ (((build_rfm tableC4).getD []).headD default).RFM_SCORE ∧
    (((build_rfm tableC4).getD []).headD default).RFM_SCORE ≤ 15 :=
  claim_C4 tableC4 ((build_rfm tableC4).getD [])
    (by decide) (((build_rfm tableC4).getD []).headD default) (by decide)

/-! Claim C2: the tie-break of the modal payment type. -/

theorem traverseGroups_mem {α β : Type} {f : α → Option β} {l : List α}
    {out : List β} (h : traverseGroups f l = some out) {b : β} (hb : b ∈ out) :
    ∃ a ∈ l, f a = some b := by
  induction l generalizing out with
  | nil =>
      unfold traverseGroups at h
      have : out = [] := (Option.some_injective _ h).symm
      subst this
      exact absurd hb (by simp)
  | cons a t ih =>
      unfold traverseGroups at h
      rcases hfa : f a with _ | b0 <;> rw [hfa] at h
      · exact absurd h (by simp)
      rcases ht : traverseGroups f t with _ | bs <;> rw [ht] at h
      · exact absurd h (by simp)
      have : b0 :: bs = out := Option.some_injective _ h
      subst this
      rcases List.mem_cons.mp hb with rfl | hb2
      · exact ⟨a, List.mem_cons_self a t, hfa⟩
      · obtain ⟨x, hx, hfx⟩ := ih ht hb2
        exact ⟨x, List.mem_cons_of_mem a hx, hfx⟩

theorem find?_min_of_sorted {l : List ℕ} {p : ℕ → Bool} {v : ℕ}
    (hs : List.Sorted (· < ·) l) (h : l.find? p = some v) :
    ∀ w ∈ l, p w = true → v ≤ w := by
  induction l with
  | nil => exact absurd h (by simp)
  | cons a t ih =>
      intro w hw hpw
      by_cases hpa : p a
      · rw [List.find?_cons_of_pos _ hpa] at h
        have hva : v = a := (Option.some_injective _ h).symm
        subst hva
        rcases List.mem_cons.mp hw with rfl | hw2
        · exact le_refl _
        · exact le_of_lt (List.rel_of_sorted_cons hs w hw2)
      · rw [List.find?_cons_of_neg _ (by simpa using hpa)] at h
        rcases List.mem_cons.mp hw with rfl | hw2
        · exact absurd hpw (by simpa using hpa)
        · exact ih hs.of_cons h w hw2 hpw

theorem foldr_max_le (f : ℕ → ℕ) {l : List ℕ} {a : ℕ} (ha : a ∈ l) :
    f a ≤ l.foldr (fun v m => max (f v) m) 0 := by
  induction l with
  | nil => exact absurd ha (by simp)
  | cons x t ih =>
      rcases List.mem_cons.mp ha with rfl | ha2
      · exact le_max_left _ _
      · exact le_trans (ih ha2) (le_max_right _ _)

theorem foldr_max_attained (f : ℕ → ℕ) {l : List ℕ} (hl : l ≠ []) :
    ∃ a ∈ l, l.foldr (fun v m => max (f v) m) 0 = f a := by
  induction l with
  | nil => exact absurd rfl hl
  | cons x t ih =>
      rcases ht : t with _ | ⟨y, t2⟩
      · exact ⟨x, List.mem_singleton_self x, max_eq_left (Nat.zero_le _)⟩
      · rw [← ht]
        have htne : t ≠ [] := by rw [ht]; exact List.cons_ne_nil _ _
        obtain ⟨a, ha, hfa⟩ := ih htne
        rcases le_total (t.foldr (fun v m => max (f v) m) 0) (f x) with hle | hle
        · exact ⟨x, List.mem_cons_self x t, max_eq_left hle⟩
        · exact ⟨a, List.mem_cons_of_mem x ha, (max_eq_right hle).trans hfa⟩

/-- A nonempty value column has a mode, and `mode()[0]` is the smallest
value attaining the maximal occurrence count. -/
theorem modeFirst_spec {xs : List ℕ} {v : ℕ} (h : modeFirst xs = some v) :
    v ∈ xs ∧ countVal xs v = maxCount xs ∧
    ∀ w ∈ xs, countVal xs w = maxCount xs → v ≤ w := by
  unfold modeFirst at h
  have hp := List.find?_some h
  simp only [beq_iff_eq] at hp
  refine ⟨mem_groupKeys.mp (List.mem_of_find?_eq_some h), hp, ?_⟩
  intro w hw hcw
  exact find?_min_of_sorted (groupKeys_sorted xs) h w (mem_groupKeys.mpr hw)
    (by simpa using hcw)

theorem modeFirst_isSome_of_ne_nil {xs : List ℕ} (h : xs ≠ []) :
    ∃ v, modeFirst xs = some v := by
  have hne : groupKeys xs ≠ [] := by
    rcases xs with _ | ⟨a, t⟩
    · exact absurd rfl h
    · intro hk
      have : a ∈ groupKeys (a :: t) := mem_groupKeys.mpr (List.mem_cons_self a t)
      rw [hk] at this
      exact absurd this (by simp)
  obtain ⟨a, ha, hfa⟩ := foldr_max_attained (countVal xs) hne
  rcases hf : modeFirst xs with _ | v
  · unfold modeFirst at hf
    rw [List.find?_eq_none] at hf
    exact absurd (by simpa using hfa.symm) (by simpa using hf a ha)
  · exact ⟨v, rfl⟩

/-- C2 (counterexample): order 1 has two tied payment types, the row-order
first being 2; the aggregation assigns 1 (the smallest), not 2. -/
theorem claim_C2_counterexample :
    paymentsAgg [⟨1, 10, some 2⟩, ⟨1, 20, some 1⟩] =
      some [{ order_id := 1, payment_value := 30, payment_type := 1 }] ∧
    modeRowOrderFirst
      ((paymentsGroup [⟨1, 10, some 2⟩, ⟨1, 20, some 1⟩] 1).filterMap (·.payment_type)) =
      some 2 ∧
    (1 : ℕ) ≠ 2 := by
  decide

/-- C2 (amended): for every order produced by the payments aggregation, the
assigned payment type attains the maximal occurrence count among the order's
non-missing payment types and, under ties, is the smallest such value in the
modes' ascending sort order (for string types, the lexicographically
smallest) — not the first type encountered in row order.  The summed payment
value is the group sum. -/
theorem claim_C2 (ps : List PaymentRow) (out : List PaymentsAggRow)
    (h : paymentsAgg ps = some out) (e : PaymentsAggRow) (he : e ∈ out) :
    e.payment_type ∈ (paymentsGroup ps e.order_id).filterMap (·.payment_type) ∧
    countVal ((paymentsGroup ps e.order_id).filterMap (·.payment_type)) e.payment_type =
      maxCount ((paymentsGroup ps e.order_id).filterMap (·.payment_type)) ∧
    (∀ w ∈ (paymentsGroup ps e.order_id).filterMap (·.payment_type),
      countVal ((paymentsGroup ps e.order_id).filterMap (·.payment_type)) w =
        maxCount ((paymentsGroup ps e.order_id).filterMap (·.payment_type)) →
      e.payment_type ≤ w) ∧
    e.payment_value = ((paymentsGroup ps e.order_id).map (·.payment_value)).sum := by
  unfold paymentsAgg at h
  obtain ⟨o, _, hfo⟩ := traverseGroups_mem h he
  rcases hm : modeFirst ((paymentsGroup ps o).filterMap (·.payment_type)) with _ | t <;>
    rw [hm] at hfo
  · exact absurd hfo (by simp)
  have he2 : ({ order_id := o
                payment_value := ((paymentsGroup ps o).map (·.payment_value)).sum
                payment_type := t } : PaymentsAggRow) = e :=
    Option.some_injective _ hfo
  have hoo : e.order_id = o := by rw [← he2]
  have hot : e.payment_type = t := by rw [← he2]
  have hov : e.payment_value = ((paymentsGroup ps o).map (·.payment_value)).sum := by
    rw [← he2]
  obtain ⟨hmem, hcnt, hmin⟩ := modeFirst_spec hm
  rw [hoo, hot, hov]
  exact ⟨hmem, hcnt, hmin, rfl⟩

/-- C2 witness: the amended statement evaluated on the concrete tied group
(types 2 then 1, once each): the assigned type is a mode and is minimal. -/
theorem claim_C2_witness :
    (((paymentsAgg [⟨1, 10, some 2⟩, ⟨1, 20, some 1⟩]).getD []).headD
        default).payment_type ∈
      ((paymentsGroup [⟨1, 10, some 2⟩, ⟨1, 20, some 1⟩]
        (((paymentsAgg [⟨1, 10, some 2⟩, ⟨1, 20, some 1⟩]).getD []).headD
          default).order_id).filterMap (·.payment_type)) ∧
    countVal
      ((paymentsGroup [⟨1, 10, some 2⟩, ⟨1, 20, some 1⟩]
        (((paymentsAgg [⟨1, 10, some 2⟩, ⟨1, 20, some 1⟩]).getD []).headD
          default).order_id).filterMap (·.payment_type))
      (((paymentsAgg [⟨1, 10, some 2⟩, ⟨1, 20, some 1⟩]).getD []).headD
        default).payment_type =
      maxCount
        ((paymentsGroup [⟨1, 10, some 2⟩, ⟨1, 20, some 1⟩]
          (((paymentsAgg [⟨1, 10, some 2⟩, ⟨1, 20, some 1⟩]).getD []).headD
            default).order_id).filterMap (·.payment_type)) ∧
    (∀ w ∈ ((paymentsGroup [⟨1, 10, some 2⟩, ⟨1, 20, some 1⟩]
        (((paymentsAgg [⟨1, 10, some 2⟩, ⟨1, 20, some 1⟩]).getD []).headD
          default).order_id).filterMap (·.payment_type)),
      countVal
        ((paymentsGroup [⟨1, 10, some 2⟩, ⟨1, 20, some 1⟩]
          (((paymentsAgg [⟨1, 10, some 2⟩, ⟨1, 20, some 1⟩]).getD []).headD
            default).order_id).filterMap (·.payment_type)) w =
        maxCount
          ((paymentsGroup [⟨1, 10, some 2⟩, ⟨1, 20, some 1⟩]
            (((paymentsAgg [⟨1, 10, some 2⟩, ⟨1, 20, some 1⟩]).getD []).headD
              default).order_id).filterMap (·.payment_type)) →
      (((paymentsAgg [⟨1, 10, some 2⟩, ⟨1, 20, some 1⟩]).getD []).headD
        default).payment_type ≤ w) ∧
    (((paymentsAgg [⟨1, 10, some 2⟩, ⟨1, 20, some 1⟩]).getD []).headD
        default).payment_value =
      ((paymentsGroup [⟨1, 10, some 2⟩, ⟨1, 20, some 1⟩]
        (((paymentsAgg [⟨1, 10, some 2⟩, ⟨1, 20, some 1⟩]).getD []).headD
          default).order_id).map (·.payment_value)).sum :=
  claim_C2 [⟨1, 10, some 2⟩, ⟨1, 20, some 1⟩]
    ((paymentsAgg [⟨1, 10, some 2⟩, ⟨1, 20, some 1⟩]).getD []) (by decide)
    (((paymentsAgg [⟨1, 10, some 2⟩, ⟨1, 20, some 1⟩]).getD []).headD default)
    (by decide)

/-! Claim C9: which anomalies abort the silver build. -/

theorem traverseGroups_isSome {α β : Type} {f : α → Option β} {l : List α} :
    (traverseGroups f l).isSome = true ↔ ∀ a ∈ l, (f a).isSome = true := by
  induction l with
  | nil =>
      unfold traverseGroups
      simp
  | cons a t ih =>
      unfold traverseGroups
      rcases hfa : f a with _ | b
      · simp [hfa]
      · rcases ht : traverseGroups f t with _ | bs
        · rw [ht] at ih
          simp only [Option.isSome_none, Bool.false_eq_true, false_iff] at ih ⊢
          push_neg at ih
          obtain ⟨x, hx, hfx⟩ := ih
          intro hall
          exact hfx (hall x (List.mem_cons_of_mem a hx))
        · rw [ht] at ih
          simp only [Option.isSome_some, true_iff] at ih
          simp only [Option.isSome_some, true_iff]
          intro x hx
          rcases List.mem_cons.mp hx with rfl | hx2
          · rw [hfa]; rfl
          · exact ih x hx2

theorem modeFirst_eq_none_iff {xs : List ℕ} : modeFirst xs = none ↔ xs = [] := by
  constructor
  · intro h
    by_contra hne
    obtain ⟨v, hv⟩ := modeFirst_isSome_of_ne_nil hne
    rw [h] at hv
    exact absurd hv (by simp)
  · intro h
    subst h
    rfl

/-- The payments aggregation succeeds exactly when every order's payment
group has at least one non-missing payment type. -/
theorem paymentsAgg_isSome_iff (p : List PaymentRow) :
    (paymentsAgg p).isSome = true ↔
      ∀ oid ∈ groupKeys (p.map (·.order_id)),
        (paymentsGroup p oid).filterMap (·.payment_type) ≠ [] := by
  unfold paymentsAgg
  rw [traverseGroups_isSome]
  constructor
  · intro hall oid hoid
    have := hall oid hoid
    rcases hm : modeFirst ((paymentsGroup p oid).filterMap (·.payment_type)) with _ | t <;>
      rw [hm] at this
    · exact absurd this (by simp)
    · exact fun hc => by
        rw [modeFirst_eq_none_iff.mpr hc] at hm
        exact absurd hm (by simp)
  · intro hall oid hoid
    have hne := hall oid hoid
    rcases hm : modeFirst ((paymentsGroup p oid).filterMap (·.payment_type)) with _ | t
    · exact absurd (modeFirst_eq_none_iff.mp hm) hne
    · rw [hm]; rfl

/-- The order-level build succeeds exactly when the payments aggregation
does; nothing else in it can fail. -/
theorem build_order_level_isSome_iff (o : List OrderRow) (c : List CustomerRow)
    (it : List ItemRow) (p : List PaymentRow) (r : List ReviewRow) :
    (build_order_level o c it p r).isSome = true ↔
      ∀ oid ∈ groupKeys (p.map (·.order_id)),
        (paymentsGroup p oid).filterMap (·.payment_type) ≠ [] := by
  have hp := paymentsAgg_isSome_iff p
  unfold build_order_level
  rcases hpa : paymentsAgg p with _ | pa <;> rw [hpa] at hp <;> simpa using hp

/-- C9 (amended): the single per-row anomaly that aborts the silver build is
a payment group whose payment types are all missing (`mode()[0]` raises
`KeyError`); with every payment group carrying a non-missing type the
order-level build always succeeds — rows with no matching customer, item,
payment or review keep missing values instead — and, provided the
quantile-binning steps have distinct edges (the structural population
condition), feature derivation, RFM scoring and the customer summary all run
to completion. -/
theorem claim_C9 :
    (∀ (o : List OrderRow) (c : List CustomerRow) (it : List ItemRow)
        (p : List PaymentRow) (r : List ReviewRow),
      (build_order_level o c it p r).isSome = true ↔
        ∀ oid ∈ groupKeys (p.map (·.order_id)),
          (paymentsGroup p oid).filterMap (·.payment_type) ≠ []) ∧
    (∀ df0 : List FactRow, qcut4Ok (orderValueCol df0) →
      add_features df0 = some (df0.map (featurize (orderValueCol df0))) ∧
      (df0.map (featurize (orderValueCol df0))).length = df0.length) ∧
    (∀ df : List FeatRow, (rCol df).isSome = true → (fCol df).isSome = true →
      (mCol df).isSome = true → (build_rfm df).isSome = true) ∧
    (∀ df : List FeatRow, (build_customer_summary df).length = (custKeys df).length) := by
  refine ⟨build_order_level_isSome_iff, ?_, ?_, ?_⟩
  · intro df0 hok
    unfold add_features
    rw [if_pos hok]
    exact ⟨rfl, List.length_map _ _⟩
  · intro df hR hF hM
    rw [Option.isSome_iff_exists] at hR hF hM
    obtain ⟨rs, hrs⟩ := hR
    obtain ⟨fs, hfs⟩ := hF
    obtain ⟨ms, hms⟩ := hM
    unfold build_rfm
    rw [hrs, hfs, hms]
    rfl
  · intro df
    unfold build_customer_summary
    exact List.length_map _ _

/-- Five delivered orders of five customers; item prices are distinct so the
order-value quartile edges are distinct; recency, frequency and monetary of
the five customers are spread so all quintile cuts succeed. -/
def ordersC9 : List OrderRow :=
  [⟨1, 11, "delivered", 1 * 86400, 2 * 86400⟩,
   ⟨2, 12, "delivered", 10 * 86400, 11 * 86400⟩,
   ⟨3, 13, "delivered", 20 * 86400, 21 * 86400⟩,
   ⟨4, 14, "delivered", 30 * 86400, 31 * 86400⟩,
   ⟨5, 15, "delivered", 40 * 86400, 41 * 86400⟩]

/-- Customers of `ordersC9`. -/
def customersC9 : List CustomerRow :=
  [⟨11, 1⟩, ⟨12, 2⟩, ⟨13, 3⟩, ⟨14, 4⟩, ⟨15, 5⟩]

/-- Item rows of `ordersC9` with distinct prices. -/
def itemsC9 : List ItemRow :=
  [⟨1, 1, 10, 1⟩, ⟨2, 1, 20, 2⟩, ⟨3, 1, 30, 3⟩, ⟨4, 1, 40, 4⟩, ⟨5, 1, 50, 5⟩]

/-- Payment rows of `ordersC9`, all carrying a payment type. -/
def paymentsC9 : List PaymentRow :=
  [⟨1, 11, some 0⟩, ⟨2, 22, some 0⟩, ⟨3, 33, some 1⟩, ⟨4, 44, some 1⟩, ⟨5, 55, some 2⟩]

/-- The same payment rows with order 1's only payment type missing. -/
def paymentsC9bad : List PaymentRow :=
  [⟨1, 11, none⟩, ⟨2, 22, some 0⟩, ⟨3, 33, some 1⟩, ⟨4, 44, some 1⟩, ⟨5, 55, some 2⟩]

/-- Review rows of `ordersC9`. -/
def reviewsC9 : List ReviewRow := [⟨1, 4⟩, ⟨2, 4⟩, ⟨3, 5⟩, ⟨4, 3⟩, ⟨5, 2⟩]

/-- C9 (counterexample): on a bronze input that supports every quantile
binning (the full silver run succeeds once order 1's payment type is
present), making order 1's single payment type missing aborts the
order-level build — the anomaly is not recovered as a missing value. -/
theorem claim_C9_counterexample :
    (silver_run ordersC9 customersC9 itemsC9 paymentsC9 reviewsC9).isSome = true ∧
    build_order_level ordersC9 customersC9 itemsC9 paymentsC9bad reviewsC9 = none ∧
    silver_run ordersC9 customersC9 itemsC9 paymentsC9bad reviewsC9 = none := by
  decide

/-! Claim C10: one gold row per distinct customer key. -/

theorem filter_length_le_one {β : Type} (kR : β → ℕ) {R : List β}
    (hnd : (R.map kR).Nodup) (k : ℕ) :
    (R.filter (fun b => kR b == k)).length ≤ 1 := by
  induction R with
  | nil => simp
  | cons x t ih =>
      rw [List.map_cons, List.nodup_cons] at hnd
      by_cases hx : kR x = k
      · have hfilt : t.filter (fun b => kR b == k) = [] := by
          rw [List.filter_eq_nil_iff]
          intro b hb
          simp only [beq_iff_eq]
          intro hc
          exact hnd.1 (by rw [hx, ← hc]; exact List.mem_map_of_mem kR hb)
        rw [List.filter_cons_of_pos (by simpa using hx), hfilt]
        simp
      · rw [List.filter_cons_of_neg (by simpa using hx)]
        exact ih hnd.2

theorem filter_key_singleton {β : Type} (kR : β → ℕ) {R : List β}
    (hnd : (R.map kR).Nodup) {k : ℕ} (hk : k ∈ R.map kR) :
    ∃ b, R.filter (fun b => kR b == k) = [b] ∧ kR b = k := by
  obtain ⟨b0, hb0, hkb0⟩ := List.mem_map.mp hk
  have hmem : b0 ∈ R.filter (fun b => kR b == k) :=
    List.mem_filter.mpr ⟨hb0, by simpa using hkb0⟩
  rcases hf : R.filter (fun b => kR b == k) with _ | ⟨b, bs⟩
  · rw [hf] at hmem; exact absurd hmem (by simp)
  · have hlen := filter_length_le_one kR hnd k
    rw [hf] at hlen
    have hbs : bs = [] := by
      rcases bs with _ | _
      · rfl
      · exact absurd hlen (by simp)
    subst hbs
    refine ⟨b, rfl, ?_⟩
    have : b ∈ R.filter (fun b => kR b == k) := by rw [hf]; exact List.mem_singleton_self b
    simpa using (List.mem_filter.mp this).2

theorem leftMerge_map_of_nodup {α β γ : Type} (L : List α) (R : List β)
    (kL : α → ℕ) (kR : β → ℕ) (comb : α → Option β → γ) (kG : γ → ℕ)
    (hnd : (R.map kR).Nodup) (hcomb : ∀ a ob, kG (comb a ob) = kL a) :
    (leftMerge L R kL kR comb).map kG = L.map kL := by
  induction L with
  | nil => rfl
  | cons a t ih =>
      unfold leftMerge at ih ⊢
      rw [List.flatMap_cons, List.map_append, ih, List.map_cons]
      rcases hf : R.filter (fun b => kR b == kL a) with _ | ⟨b, bs⟩
      · simp [hcomb]
      · have hlen := filter_length_le_one kR hnd (kL a)
        rw [hf] at hlen
        have hbs : bs = [] := by
          rcases bs with _ | _
          · rfl
          · exact absurd hlen (by simp)
        subst hbs
        simp [hcomb]

theorem innerMerge_map_of_unique {α β γ : Type} (L : List α) (R : List β)
    (kL : α → ℕ) (kR : β → ℕ) (comb : α → β → γ) (kG : γ → ℕ)
    (hmatch : ∀ a ∈ L, ∃ b, R.filter (fun x => kR x == kL a) = [b])
    (hcomb : ∀ a b, kG (comb a b) = kL a) :
    (innerMerge L R kL kR comb).map kG = L.map kL := by
  induction L with
  | nil => rfl
  | cons a t ih =>
      unfold innerMerge at ih ⊢
      rw [List.flatMap_cons, List.map_append,
        ih (fun x hx => hmatch x (List.mem_cons_of_mem a hx)), List.map_cons]
      obtain ⟨b, hb⟩ := hmatch a (List.mem_cons_self a t)
      rw [hb]
      simp [hcomb]

theorem cust_features_map_key (orders : List FeatRow) :
    (cust_features orders).map (·.customer_unique_id) = custKeys orders := by
  unfold cust_features
  rw [List.map_map]
  exact List.map_id _

theorem last_order_churn_map_key (orders : List FeatRow) :
    (last_order_churn orders).map (·.customer_unique_id) = custKeys orders := by
  unfold last_order_churn
  rw [List.map_map]
  exact List.map_id _

/-- C10: with the customers and rfm tables uniquely keyed, the final
`customer_churn_features` table carries exactly the distinct customer keys
of the orders table, once each — the two left merges add no rows and the
concluding inner merge with the churn labels (grouped from the same orders)
drops none. -/
theorem claim_C10 (orders : List FeatRow) (customers : List SummaryRow)
    (rfm : List RfmRow)
    (hc : (customers.map (·.customer_unique_id)).Nodup)
    (hr : (rfm.map (·.customer_unique_id)).Nodup) :
    (customer_churn_features orders customers rfm).map (·.customer_unique_id) =
      custKeys orders ∧
    (custKeys orders).Nodup ∧
    (∀ k, k ∈ custKeys orders ↔ k ∈ orders.filterMap (·.customer_unique_id)) := by
  refine ⟨?_, groupKeys_nodup _, fun k => mem_groupKeys⟩
  unfold customer_churn_features
  set L1 := leftMerge (cust_features orders) customers (·.customer_unique_id)
    (·.customer_unique_id) (fun a b => (a, b)) with hL1
  set L2 := leftMerge L1 rfm (fun x => x.1.customer_unique_id) (·.customer_unique_id)
    (fun a b => (a.1, a.2, b)) with hL2
  have h1 : L1.map (fun x => x.1.customer_unique_id) =
      (cust_features orders).map (·.customer_unique_id) :=
    leftMerge_map_of_nodup (cust_features orders) customers (·.customer_unique_id)
      (·.customer_unique_id) (fun a b => (a, b)) (fun x => x.1.customer_unique_id)
      hc (fun a ob => rfl)
  have h2 : L2.map (fun x => x.1.customer_unique_id) =
      L1.map (fun x => x.1.customer_unique_id) :=
    leftMerge_map_of_nodup L1 rfm (fun x => x.1.customer_unique_id)
      (·.customer_unique_id) (fun a b => (a.1, a.2, b))
      (fun x => x.1.customer_unique_id) hr (fun a ob => rfl)
  have hkeys : L2.map (fun x => x.1.customer_unique_id) = custKeys orders := by
    rw [h2, h1, cust_features_map_key]
  have hchnd : ((last_order_churn orders).map (·.customer_unique_id)).Nodup := by
    rw [last_order_churn_map_key]
    exact groupKeys_nodup _
  have hmatch : ∀ a ∈ L2,
      ∃ b, (last_order_churn orders).filter
        (fun x => x.customer_unique_id == a.1.customer_unique_id) = [b] := by
    intro a ha
    have hker : a.1.customer_unique_id ∈
        (last_order_churn orders).map (·.customer_unique_id) := by
      rw [last_order_churn_map_key, ← hkeys]
      exact List.mem_map_of_mem (fun x => x.1.customer_unique_id) ha
    obtain ⟨b, hb, _⟩ := filter_key_singleton (fun c : ChurnRow => c.customer_unique_id) hchnd hker
    exact ⟨b, hb⟩
  have h3 := innerMerge_map_of_unique L2 (last_order_churn orders)
    (fun x => x.1.customer_unique_id) (fun x => x.customer_unique_id)
    (fun a b =>
      ({ customer_unique_id := a.1.customer_unique_id
         feat := a.1
         summary := a.2.1
         rfm := a.2.2
         churn := b.churn } : GoldRow))
    (fun g => g.customer_unique_id) hmatch (fun a b => rfl)
  rw [h3, hkeys]

/-- C10 witness: the gold build over the five-customer table and its derived
summary and rfm tables carries exactly the five distinct customer keys. -/
theorem claim_C10_witness :
    (customer_churn_features tableC4 (build_customer_summary tableC4)
        ((build_rfm tableC4).getD [])).map (·.customer_unique_id) =
      custKeys tableC4 ∧
    (custKeys tableC4).Nodup ∧
    (∀ k, k ∈ custKeys tableC4 ↔ k ∈ tableC4.filterMap (·.customer_unique_id)) :=
  claim_C10 tableC4 (build_customer_summary tableC4) ((build_rfm tableC4).getD [])
    (by decide) (by decide)

/-! Facts about sorting and quantile interpolation, shared by C6 and C7. -/

theorem sortColumn_sorted (l : List ℚ) : List.Sorted (· ≤ ·) (sortColumn l) :=
  List.sorted_insertionSort (· ≤ ·) l

theorem sortColumn_perm (l : List ℚ) : (sortColumn l).Perm l :=
  List.perm_insertionSort (· ≤ ·) l

theorem sortColumn_length (l : List ℚ) : (sortColumn l).length = l.length :=
  (sortColumn_perm l).length_eq

theorem sorted_getD_mono {s : List ℚ} (hs : List.Sorted (· ≤ ·) s) {i j : ℕ}
    (hij : i ≤ j) (hj : j < s.length) : s.getD i 0 ≤ s.getD j 0 := by
  have hi : i < s.length := lt_of_le_of_lt hij hj
  rw [List.getD_eq_getElem s 0 hi, List.getD_eq_getElem s 0 hj]
  rcases eq_or_lt_of_le hij with rfl | hlt
  · exact le_refl _
  · exact List.pairwise_iff_getElem.mp hs i j hi hj hlt

/-- A linear-interpolation quantile of a sorted nonempty column lies between
the column's minimum and maximum. -/
theorem interpQuantile_bounds {s : List ℚ} (hs : List.Sorted (· ≤ ·) s)
    (hne : s ≠ []) {q : ℚ} (h0 : 0 ≤ q) (h1 : q ≤ 1) :
    s.getD 0 0 ≤ interpQuantile s q ∧ interpQuantile s q ≤ s.getD (s.length - 1) 0 := by
  have hn : 0 < s.length := List.length_pos.mpr hne
  have hn1 : (1 : ℚ) ≤ (s.length : ℚ) := by exact_mod_cast hn
  unfold interpQuantile
  simp only
  set h : ℚ := q * ((s.length : ℚ) - 1) with hhdef
  have hh0 : 0 ≤ h := mul_nonneg h0 (by linarith)
  have hhle : h ≤ (s.length : ℚ) - 1 := by
    calc h ≤ 1 * ((s.length : ℚ) - 1) := mul_le_mul_of_nonneg_right h1 (by linarith)
      _ = (s.length : ℚ) - 1 := one_mul _
  have hile : ((⌊h⌋₊ : ℕ) : ℚ) ≤ h := Nat.floor_le hh0
  have hlti : h < ((⌊h⌋₊ : ℕ) : ℚ) + 1 := Nat.lt_floor_add_one h
  have hin : ⌊h⌋₊ ≤ s.length - 1 := by
    have hc : ((⌊h⌋₊ : ℕ) : ℚ) ≤ ((s.length - 1 : ℕ) : ℚ) := by
      rw [Nat.cast_sub hn]
      push_cast
      linarith
    exact_mod_cast hc
  have hilt : ⌊h⌋₊ < s.length := lt_of_le_of_lt hin (Nat.sub_lt hn one_pos)
  have hlo0 : s.getD 0 0 ≤ s.getD ⌊h⌋₊ 0 := sorted_getD_mono hs (Nat.zero_le _) hilt
  have hγ0 : 0 ≤ h - ((⌊h⌋₊ : ℕ) : ℚ) := by linarith
  have hγ1 : h - ((⌊h⌋₊ : ℕ) : ℚ) ≤ 1 := by linarith
  by_cases hcase : ⌊h⌋₊ + 1 < s.length
  · have hhi : s.getD (⌊h⌋₊ + 1) (s.getD ⌊h⌋₊ 0) = s.getD (⌊h⌋₊ + 1) 0 := by
      rw [List.getD_eq_getElem s _ hcase, List.getD_eq_getElem s 0 hcase]
    rw [hhi]
    have hmono : s.getD ⌊h⌋₊ 0 ≤ s.getD (⌊h⌋₊ + 1) 0 :=
      sorted_getD_mono hs (Nat.le_succ _) hcase
    have hhimax : s.getD (⌊h⌋₊ + 1) 0 ≤ s.getD (s.length - 1) 0 :=
      sorted_getD_mono hs (by omega) (by omega)
    constructor
    · have : 0 ≤ (h - ((⌊h⌋₊ : ℕ) : ℚ)) * (s.getD (⌊h⌋₊ + 1) 0 - s.getD ⌊h⌋₊ 0) :=
        mul_nonneg hγ0 (by linarith)
      linarith
    · have : (h - ((⌊h⌋₊ : ℕ) : ℚ)) * (s.getD (⌊h⌋₊ + 1) 0 - s.getD ⌊h⌋₊ 0) ≤
          s.getD (⌊h⌋₊ + 1) 0 - s.getD ⌊h⌋₊ 0 :=
        mul_le_of_le_one_left (by linarith) hγ1
      linarith
  · have hdef : s.getD (⌊h⌋₊ + 1) (s.getD ⌊h⌋₊ 0) = s.getD ⌊h⌋₊ 0 :=
      List.getD_eq_default s _ (by omega)
    rw [hdef]
    have hmax : s.getD ⌊h⌋₊ 0 ≤ s.getD (s.length - 1) 0 :=
      sorted_getD_mono hs hin (by omega)
    constructor
    · have hz : (h - ((⌊h⌋₊ : ℕ) : ℚ)) * (s.getD ⌊h⌋₊ 0 - s.getD ⌊h⌋₊ 0) = 0 := by ring
      linarith
    · have hz : (h - ((⌊h⌋₊ : ℕ) : ℚ)) * (s.getD ⌊h⌋₊ 0 - s.getD ⌊h⌋₊ 0) = 0 := by ring
      linarith

theorem quantEdge_ge_min {x : List ℚ} (hne : x ≠ []) {k parts : ℕ}
    (hk : k ≤ parts) (hp : 0 < parts) :
    (sortColumn x).getD 0 0 ≤ quantEdge x k parts := by
  have hsne : sortColumn x ≠ [] := by
    intro hc
    exact hne (List.Perm.eq_nil ((sortColumn_perm x).symm.trans (hc ▸ List.Perm.refl _)))
  have hq0 : (0 : ℚ) ≤ (k : ℚ) / (parts : ℚ) :=
    div_nonneg (Nat.cast_nonneg k) (Nat.cast_nonneg parts)
  have hq1 : (k : ℚ) / (parts : ℚ) ≤ 1 := by
    rw [div_le_one (by exact_mod_cast hp)]
    exact_mod_cast hk
  exact (interpQuantile_bounds (sortColumn_sorted x) hsne hq0 hq1).1

theorem quantEdge_le_max {x : List ℚ} (hne : x ≠ []) {k parts : ℕ}
    (hk : k ≤ parts) (hp : 0 < parts) :
    quantEdge x k parts ≤ (sortColumn x).getD ((sortColumn x).length - 1) 0 := by
  have hsne : sortColumn x ≠ [] := by
    intro hc
    exact hne (List.Perm.eq_nil ((sortColumn_perm x).symm.trans (hc ▸ List.Perm.refl _)))
  have hq0 : (0 : ℚ) ≤ (k : ℚ) / (parts : ℚ) :=
    div_nonneg (Nat.cast_nonneg k) (Nat.cast_nonneg parts)
  have hq1 : (k : ℚ) / (parts : ℚ) ≤ 1 := by
    rw [div_le_one (by exact_mod_cast hp)]
    exact_mod_cast hk
  exact (interpQuantile_bounds (sortColumn_sorted x) hsne hq0 hq1).2

theorem bin5_val (e1 e2 e3 e4 v : ℚ) :
    (bin5 e1 e2 e3 e4 v).val =
      if v ≤ e1 then 0 else if v ≤ e2 then 1 else if v ≤ e3 then 2
      else if v ≤ e4 then 3 else 4 := by
  unfold bin5
  split_ifs <;> rfl

theorem bin5_val_mono (e1 e2 e3 e4 : ℚ) {v w : ℚ} (hvw : v ≤ w) :
    (bin5 e1 e2 e3 e4 v).val ≤ (bin5 e1 e2 e3 e4 w).val := by
  rw [bin5_val, bin5_val]
  split_ifs <;> first | omega | linarith

theorem bin5_eq_zero {e1 e2 e3 e4 v : ℚ} (h : v ≤ e1) :
    bin5 e1 e2 e3 e4 v = 0 := by
  unfold bin5
  rw [if_pos h]

theorem bin5_eq_four {e1 e2 e3 e4 v : ℚ} (h12 : e1 < e2) (h23 : e2 < e3)
    (h34 : e3 < e4) (h : e4 < v) : bin5 e1 e2 e3 e4 v = 4 := by
  unfold bin5
  rw [if_neg (by linarith), if_neg (by linarith), if_neg (by linarith),
    if_neg (by linarith)]

/-! Claim C6: recency anchored at max purchase + 1 day, and the inverted R
quintile. -/

theorem recencyCol_getD (df : List FeatRow) {i : ℕ} (hi : i < (custKeys df).length) :
    (recencyCol df).getD i 0 = ((recencyOf df ((custKeys df).getD i 0) : ℕ) : ℚ) := by
  unfold recencyCol
  have him : i < ((custKeys df).map (fun k => (recencyOf df k : ℚ))).length := by
    rw [List.length_map]; exact hi
  rw [List.getD_eq_getElem _ 0 him, List.getElem_map, List.getD_eq_getElem _ 0 hi]

/-- C6: every RFM row's recency is the whole-day gap between the snapshot —
fixed at the dataset's maximum purchase timestamp plus one day — and the
customer's latest purchase, and the R score is inverted: it is antitone in
recency, a row of minimal recency scores 5 and a row of maximal recency
scores 1. -/
theorem claim_C6 (df : List FeatRow) (rfm : List RfmRow)
    (h : build_rfm df = some rfm) :
    snapshot_date df = colMax (df.map (·.order_purchase_timestamp)) + 86400 ∧
    (∀ row ∈ rfm, row.recency =
      (snapshot_date df -
        colMax ((custGroup df row.customer_unique_id).map (·.order_purchase_timestamp)))
        / 86400) ∧
    (∀ p ∈ rfm, ∀ q ∈ rfm, p.recency ≤ q.recency → q.R ≤ p.R) ∧
    (∀ p ∈ rfm, (∀ q ∈ rfm, p.recency ≤ q.recency) → p.R = 5) ∧
    (∀ p ∈ rfm, (∀ q ∈ rfm, q.recency ≤ p.recency) → p.R = 1) := by
  obtain ⟨rs, fs, ms, hR, hF, hM, hx⟩ := build_rfm_eq_some h
  obtain ⟨hrs_eq, he01, he12, he23, he34, he45⟩ := qcut5_eq_some hR
  have hcol : (recencyCol df).length = (custKeys df).length := recencyCol_length df
  have hmem_row : ∀ p ∈ rfm, ∃ i, ∃ hi : i < (custKeys df).length,
      p = { customer_unique_id := (custKeys df).getD i 0
            recency := recencyOf df ((custKeys df).getD i 0)
            frequency := frequencyOf df ((custKeys df).getD i 0)
            monetary := monetaryOf df ((custKeys df).getD i 0)
            R := rs.getD i 0
            F := fs.getD i 0
            M := ms.getD i 0
            RFM_SCORE := rs.getD i 0 + fs.getD i 0 + ms.getD i 0 } := by
    intro p hp
    rw [hx, List.mem_map] at hp
    obtain ⟨i, hi, hpi⟩ := hp
    exact ⟨i, List.mem_range.mp hi, hpi.symm⟩
  have hrow_mem : ∀ i (hi : i < (custKeys df).length),
      ({ customer_unique_id := (custKeys df).getD i 0
         recency := recencyOf df ((custKeys df).getD i 0)
         frequency := frequencyOf df ((custKeys df).getD i 0)
         monetary := monetaryOf df ((custKeys df).getD i 0)
         R := rs.getD i 0
         F := fs.getD i 0
         M := ms.getD i 0
         RFM_SCORE := rs.getD i 0 + fs.getD i 0 + ms.getD i 0 } : RfmRow) ∈ rfm := by
    intro i hi
    rw [hx, List.mem_map]
    exact ⟨i, List.mem_range.mpr hi, rfl⟩
  have hRval : ∀ i (hi : i < (custKeys df).length),
      rs.getD i 0 = rLabel (bin5 (quantEdge (recencyCol df) 1 5)
        (quantEdge (recencyCol df) 2 5) (quantEdge (recencyCol df) 3 5)
        (quantEdge (recencyCol df) 4 5)
        ((recencyOf df ((custKeys df).getD i 0) : ℕ) : ℚ)) := by
    intro i hi
    rw [qcut5_getD hR i (by rw [hcol]; exact hi), recencyCol_getD df hi]
  refine ⟨rfl, ?_, ?_, ?_, ?_⟩
  · intro row hrow
    obtain ⟨i, hi, hpi⟩ := hmem_row row hrow
    subst hpi
    rfl
  · intro p hp q hq hpq
    obtain ⟨i, hi, hpi⟩ := hmem_row p hp
    obtain ⟨j, hj, hqj⟩ := hmem_row q hq
    subst hpi hqj
    simp only at hpq ⊢
    rw [hRval i hi, hRval j hj]
    unfold rLabel
    have hcast : ((recencyOf df ((custKeys df).getD i 0) : ℕ) : ℚ) ≤
        ((recencyOf df ((custKeys df).getD j 0) : ℕ) : ℚ) := by exact_mod_cast hpq
    have hb := bin5_val_mono (quantEdge (recencyCol df) 1 5)
      (quantEdge (recencyCol df) 2 5) (quantEdge (recencyCol df) 3 5)
      (quantEdge (recencyCol df) 4 5) hcast
    have hb5 : (bin5 (quantEdge (recencyCol df) 1 5) (quantEdge (recencyCol df) 2 5)
        (quantEdge (recencyCol df) 3 5) (quantEdge (recencyCol df) 4 5)
        ((recencyOf df ((custKeys df).getD j 0) : ℕ) : ℚ)).val < 5 := Fin.is_lt _
    omega
  · intro p hp hall
    obtain ⟨i, hi, hpi⟩ := hmem_row p hp
    have hne : recencyCol df ≠ [] := by
      intro hc
      rw [hc] at hcol
      simp at hcol
      omega
    have hs0mem : (sortColumn (recencyCol df)).getD 0 0 ∈ recencyCol df := by
      have hlen : 0 < (sortColumn (recencyCol df)).length := by
        rw [sortColumn_length, hcol]; omega
      rw [List.getD_eq_getElem _ 0 hlen]
      exact (sortColumn_perm (recencyCol df)).mem_iff.mp (List.getElem_mem hlen)
    obtain ⟨j, hj, hjv⟩ := List.mem_iff_getElem.mp hs0mem
    have hjn : j < (custKeys df).length := by rw [← hcol]; exact hj
    have hjval : (recencyCol df)[j] = ((recencyOf df ((custKeys df).getD j 0) : ℕ) : ℚ) := by
      rw [← List.getD_eq_getElem (recencyCol df) 0 hj]
      exact recencyCol_getD df hjn
    have hple : p.recency ≤ recencyOf df ((custKeys df).getD j 0) := by
      have := hall _ (hrow_mem j hjn)
      simpa using this
    have hvple : ((p.recency : ℕ) : ℚ) ≤ (sortColumn (recencyCol df)).getD 0 0 := by
      rw [← hjv, hjval]
      exact_mod_cast hple
    have he1 : (sortColumn (recencyCol df)).getD 0 0 ≤ quantEdge (recencyCol df) 1 5 :=
      quantEdge_ge_min hne (by norm_num) (by norm_num)
    subst hpi
    simp only at hvple ⊢
    rw [hRval i hi]
    rw [bin5_eq_zero (le_trans hvple he1)]
    rfl
  · intro p hp hall
    obtain ⟨i, hi, hpi⟩ := hmem_row p hp
    have hne : recencyCol df ≠ [] := by
      intro hc
      rw [hc] at hcol
      simp at hcol
      omega
    have hlen : 0 < (sortColumn (recencyCol df)).length := by
      rw [sortColumn_length, hcol]; omega
    have hsmem : (sortColumn (recencyCol df)).getD
        ((sortColumn (recencyCol df)).length - 1) 0 ∈ recencyCol df := by
      rw [List.getD_eq_getElem _ 0 (by omega)]
      exact (sortColumn_perm (recencyCol df)).mem_iff.mp (List.getElem_mem (by omega))
    obtain ⟨j, hj, hjv⟩ := List.mem_iff_getElem.mp hsmem
    have hjn : j < (custKeys df).length := by rw [← hcol]; exact hj
    have hjval : (recencyCol df)[j] = ((recencyOf df ((custKeys df).getD j 0) : ℕ) : ℚ) := by
      rw [← List.getD_eq_getElem (recencyCol df) 0 hj]
      exact recencyCol_getD df hjn
    have hple : recencyOf df ((custKeys df).getD j 0) ≤ p.recency := by
      have := hall _ (hrow_mem j hjn)
      simpa using this
    have hvple : (sortColumn (recencyCol df)).getD
        ((sortColumn (recencyCol df)).length - 1) 0 ≤ ((p.recency : ℕ) : ℚ) := by
      rw [← hjv, hjval]
      exact_mod_cast hple
    have he5 : quantEdge (recencyCol df) 5 5 ≤ (sortColumn (recencyCol df)).getD
        ((sortColumn (recencyCol df)).length - 1) 0 :=
      quantEdge_le_max hne (by norm_num) (by norm_num)
    subst hpi
    simp only at hvple ⊢
    rw [hRval i hi]
    rw [bin5_eq_four he12 he23 he34 (by linarith)]
    rfl

/-- C6 witness: the recency anchoring and the R inversion evaluated on the
concrete five-customer table. -/
theorem claim_C6_witness :
    snapshot_date tableC4 = colMax (tableC4.map (·.order_purchase_timestamp)) + 86400 ∧
    (∀ row ∈ (build_rfm tableC4).getD [], row.recency =
      (snapshot_date tableC4 -
        colMax ((custGroup tableC4 row.customer_unique_id).map
          (·.order_purchase_timestamp))) / 86400) ∧
    (∀ p ∈ (build_rfm tableC4).getD [], ∀ q ∈ (build_rfm tableC4).getD [],
      p.recency ≤ q.recency → q.R ≤ p.R) ∧
    (∀ p ∈ (build_rfm tableC4).getD [],
      (∀ q ∈ (build_rfm tableC4).getD [], p.recency ≤ q.recency) → p.R = 5) ∧
    (∀ p ∈ (build_rfm tableC4).getD [],
      (∀ q ∈ (build_rfm tableC4).getD [], q.recency ≤ p.recency) → p.R = 1) :=
  claim_C6 tableC4 ((build_rfm tableC4).getD []) (by decide)

/-! Claim C7, part 1: `rank(method="first")` turns any column of length `n`
into a permutation of `1, …, n`. -/

theorem rankFirst_getD {x : List ℚ} {i : ℕ} (hi : i < x.length) :
    (rankFirst x).getD i 0 =
      ((x.countP (fun w => decide (w < x.getD i 0)) +
        (x.take i).countP (fun w => w == x.getD i 0) + 1 : ℕ) : ℚ) := by
  have him : i < (rankFirst x).length := by rw [rankFirst_length]; exact hi
  rw [List.getD_eq_getElem _ 0 him]
  unfold rankFirst
  rw [List.getElem_mapIdx, List.getD_eq_getElem x 0 hi]

theorem countP_take_mono (p : ℚ → Bool) (x : List ℚ) {i j : ℕ} (hij : i ≤ j) :
    (x.take i).countP p ≤ (x.take j).countP p := by
  have hsub : (x.take i).Sublist (x.take j) := by
    rw [show j = i + (j - i) by omega, List.take_add]
    exact List.sublist_append_left _ _
  exact hsub.countP_le p

theorem countP_disjoint {α : Type} (p q : α → Bool) (l : List α)
    (hdis : ∀ a ∈ l, ¬(p a = true ∧ q a = true)) :
    l.countP (fun a => p a || q a) = l.countP p + l.countP q := by
  induction l with
  | nil => rfl
  | cons a t ih =>
      rw [List.countP_cons, List.countP_cons, List.countP_cons,
        ih (fun b hb => hdis b (List.mem_cons_of_mem a hb))]
      have hda := hdis a (List.mem_cons_self a t)
      cases hpa : p a <;> cases hqa : q a <;> simp [hpa, hqa] at hda ⊢ <;> omega

theorem countP_and_not {α : Type} (p q : α → Bool) (l : List α)
    (himp : ∀ a ∈ l, q a = true → p a = true) :
    l.countP (fun a => p a && !q a) + l.countP q = l.countP p := by
  induction l with
  | nil => rfl
  | cons a t ih =>
      rw [List.countP_cons, List.countP_cons, List.countP_cons]
      have hia := himp a (List.mem_cons_self a t)
      rw [← ih (fun b hb => himp b (List.mem_cons_of_mem a hb))]
      cases hpa : p a <;> cases hqa : q a <;> simp [hpa, hqa] at hia ⊢ <;> omega

/-- One plus the rank numerator is bounded by the count of entries at most
the current value. -/
theorem rank_le_countP_le {x : List ℚ} {i : ℕ} (hi : i < x.length) :
    x.countP (fun w => decide (w < x.getD i 0)) +
      (x.take i).countP (fun w => w == x.getD i 0) + 1 ≤
    x.countP (fun w => decide (w < x.getD i 0) || (w == x.getD i 0)) := by
  set v := x.getD i 0 with hv
  rw [countP_disjoint _ _ x (by
    intro a _ hc
    obtain ⟨h1, h2⟩ := hc
    rw [beq_iff_eq] at h2
    rw [h2] at h1
    simp at h1)]
  have hx : x = x.take i ++ (v :: x.drop (i + 1)) := by
    conv_lhs => rw [← List.take_append_drop i x]
    congr 1
    rw [hv, List.getD_eq_getElem x 0 hi]
    exact List.drop_eq_getElem_cons hi
  have htake : (x.take i).countP (fun w => w == v) + 1 ≤
      x.countP (fun w => w == v) := by
    have hsplit : x.countP (fun w => w == v) =
        (x.take i).countP (fun w => w == v) +
          ((v :: x.drop (i + 1)).countP (fun w => w == v)) := by
      conv_lhs => rw [hx]
      rw [List.countP_append]
    have hcons : ((v :: x.drop (i + 1)).countP (fun w => w == v)) =
        (x.drop (i + 1)).countP (fun w => w == v) + 1 := by
      rw [List.countP_cons]
      simp
    omega
  omega

theorem rankFirst_lt_of_lt {x : List ℚ} {i j : ℕ} (hi : i < x.length)
    (hj : j < x.length) (hv : x.getD i 0 < x.getD j 0) :
    (rankFirst x).getD i 0 < (rankFirst x).getD j 0 := by
  rw [rankFirst_getD hi, rankFirst_getD hj]
  rw [Nat.cast_lt]
  have hmono : x.countP (fun w => decide (w < x.getD i 0) || (w == x.getD i 0)) ≤
      x.countP (fun w => decide (w < x.getD j 0)) := by
    apply List.countP_mono_left
    intro a _ ha
    rcases Bool.or_eq_true_iff.mp ha with h1 | h2
    · have := of_decide_eq_true h1
      exact decide_eq_true (lt_trans this hv)
    · rw [beq_iff_eq] at h2
      rw [h2]
      exact decide_eq_true hv
  have := rank_le_countP_le hi
  omega

theorem rankFirst_lt_of_eq {x : List ℚ} {i j : ℕ} (hi : i < x.length)
    (hj : j < x.length) (hij : i < j) (hv : x.getD i 0 = x.getD j 0) :
    (rankFirst x).getD i 0 < (rankFirst x).getD j 0 := by
  rw [rankFirst_getD hi, rankFirst_getD hj]
  rw [Nat.cast_lt, ← hv]
  have htake : (x.take i).countP (fun w => w == x.getD i 0) + 1 ≤
      (x.take j).countP (fun w => w == x.getD i 0) := by
    have hstep : (x.take (i + 1)).countP (fun w => w == x.getD i 0) =
        (x.take i).countP (fun w => w == x.getD i 0) + 1 := by
      rw [List.take_succ, List.countP_append]
      have : x[i]? = some (x.getD i 0) := by
        rw [List.getD_eq_getElem x 0 hi]
        exact List.getElem?_eq_getElem hi
      rw [this]
      simp
    calc (x.take i).countP (fun w => w == x.getD i 0) + 1 =
        (x.take (i + 1)).countP (fun w => w == x.getD i 0) := hstep.symm
      _ ≤ (x.take j).countP (fun w => w == x.getD i 0) := countP_take_mono _ x hij
  omega

theorem rankFirst_nodup (x : List ℚ) : (rankFirst x).Nodup := by
  rw [List.Nodup, List.pairwise_iff_getElem]
  intro i j hi hj hij
  have hi2 : i < x.length := by rw [rankFirst_length] at hi; exact hi
  have hj2 : j < x.length := by rw [rankFirst_length] at hj; exact hj
  have hgi : (rankFirst x)[i] = (rankFirst x).getD i 0 :=
    (List.getD_eq_getElem _ 0 hi).symm
  have hgj : (rankFirst x)[j] = (rankFirst x).getD j 0 :=
    (List.getD_eq_getElem _ 0 hj).symm
  rw [hgi, hgj]
  rcases lt_trichotomy (x.getD i 0) (x.getD j 0) with hv | hv | hv
  · exact ne_of_lt (rankFirst_lt_of_lt hi2 hj2 hv)
  · exact ne_of_lt (rankFirst_lt_of_eq hi2 hj2 hij hv)
  · exact ne_of_gt (rankFirst_lt_of_lt hj2 hi2 hv)

theorem rankFirst_mem_bounds {x : List ℚ} {i : ℕ} (hi : i < x.length) :
    ∃ r : ℕ, (rankFirst x).getD i 0 = (r : ℚ) ∧ 1 ≤ r ∧ r ≤ x.length := by
  rw [rankFirst_getD hi]
  refine ⟨_, rfl, by omega, ?_⟩
  have h1 := rank_le_countP_le hi
  have h2 := List.countP_le_length
    (p := fun w => decide (w < x.getD i 0) || (w == x.getD i 0)) (l := x)
  omega

theorem rankFirst_perm (x : List ℚ) :
    (rankFirst x).Perm ((List.range x.length).map (fun j => ((j + 1 : ℕ) : ℚ))) := by
  have hlen : ((List.range x.length).map (fun j => ((j + 1 : ℕ) : ℚ))).length =
      (rankFirst x).length := by
    rw [List.length_map, List.length_range, rankFirst_length]
  apply List.Subperm.perm_of_length_le _ (le_of_eq hlen)
  apply List.subperm_of_subset (rankFirst_nodup x)
  intro a ha
  obtain ⟨i, hi, hieq⟩ := List.mem_iff_getElem.mp ha
  have hi2 : i < x.length := by rw [rankFirst_length] at hi; exact hi
  have hgd : (rankFirst x).getD i 0 = a := by
    rw [List.getD_eq_getElem _ 0 hi]; exact hieq
  obtain ⟨r, hr, hr1, hrn⟩ := rankFirst_mem_bounds hi2
  rw [List.mem_map]
  refine ⟨r - 1, List.mem_range.mpr (by omega), ?_⟩
  rw [show r - 1 + 1 = r by omega, ← hr, hgd]

theorem sort_rankFirst (x : List ℚ) :
    sortColumn (rankFirst x) =
      (List.range x.length).map (fun j => ((j + 1 : ℕ) : ℚ)) := by
  apply List.eq_of_perm_of_sorted
    ((sortColumn_perm _).trans (rankFirst_perm x)) (sortColumn_sorted _)
  rw [List.Sorted, List.pairwise_iff_getElem]
  intro i j hi hj hij
  have hi2 : i < x.length := by
    rw [List.length_map, List.length_range] at hi; exact hi
  have hj2 : j < x.length := by
    rw [List.length_map, List.length_range] at hj; exact hj
  rw [List.getElem_map, List.getElem_map, List.getElem_range, List.getElem_range]
  have : i + 1 ≤ j + 1 := by omega
  exact_mod_cast this

/-! Claim C7, part 2: the quintile edges over ranked data in closed form,
and the bin populations. -/

theorem interpQuantile_eval (s : List ℚ) (q : ℚ) :
    interpQuantile s q =
      s.getD ⌊q * ((s.length : ℚ) - 1)⌋₊ 0 +
        (q * ((s.length : ℚ) - 1) - ((⌊q * ((s.length : ℚ) - 1)⌋₊ : ℕ) : ℚ)) *
          (s.getD (⌊q * ((s.length : ℚ) - 1)⌋₊ + 1)
              (s.getD ⌊q * ((s.length : ℚ) - 1)⌋₊ 0) -
            s.getD ⌊q * ((s.length : ℚ) - 1)⌋₊ 0) := rfl

theorem range_map_getD {n idx : ℕ} (d : ℚ) (hidx : idx < n) :
    ((List.range n).map (fun j => ((j + 1 : ℕ) : ℚ))).getD idx d = ((idx + 1 : ℕ) : ℚ) := by
  have hlt : idx < ((List.range n).map (fun j => ((j + 1 : ℕ) : ℚ))).length := by
    rw [List.length_map, List.length_range]; exact hidx
  rw [List.getD_eq_getElem _ d hlt, List.getElem_map, List.getElem_range]

/-- Over a ranked column of length `n ≥ 2` (a permutation of `1, …, n`), the
`k`-th quintile edge is exactly `1 + k (n-1) / 5`. -/
theorem quantEdge_rankFirst {x : List ℚ} (hn2 : 2 ≤ x.length) {k : ℕ} (hk : k ≤ 5) :
    quantEdge (rankFirst x) k 5 =
      1 + (k : ℚ) * ((x.length : ℚ) - 1) / 5 := by
  have hn1 : 1 ≤ x.length := le_trans (by norm_num) hn2
  have hn1q : (1 : ℚ) ≤ (x.length : ℚ) := by exact_mod_cast hn1
  unfold quantEdge
  rw [sort_rankFirst, interpQuantile_eval]
  simp only [List.length_map, List.length_range]
  have hq5 : ((5 : ℕ) : ℚ) = (5 : ℚ) := by norm_num
  have hcast : ((x.length : ℚ) - 1) = ((x.length - 1 : ℕ) : ℚ) := by
    rw [Nat.cast_sub hn1]; push_cast; ring
  have hheq : (k : ℚ) / ((5 : ℕ) : ℚ) * ((x.length : ℚ) - 1) =
      ((k * (x.length - 1) : ℕ) : ℚ) / ((5 : ℕ) : ℚ) := by
    rw [hq5, hcast]; push_cast; ring
  have hfl : ⌊(k : ℚ) / ((5 : ℕ) : ℚ) * ((x.length : ℚ) - 1)⌋₊ =
      k * (x.length - 1) / 5 := by
    rw [hheq, Nat.floor_div_nat, Nat.floor_natCast]
  by_cases hk5 : k < 5
  · have hlt : k * (x.length - 1) / 5 < x.length - 1 := by
      have h1 : (k : ℚ) / ((5 : ℕ) : ℚ) * ((x.length : ℚ) - 1) < (x.length : ℚ) - 1 := by
        rw [hq5]
        have hq1 : (k : ℚ) / 5 < 1 := by
          rw [div_lt_one (by norm_num : (0 : ℚ) < 5)]
          exact_mod_cast hk5
        have hpos : (0 : ℚ) < (x.length : ℚ) - 1 := by
          have : (2 : ℚ) ≤ (x.length : ℚ) := by exact_mod_cast hn2
          linarith
        calc (k : ℚ) / 5 * ((x.length : ℚ) - 1) <
            1 * ((x.length : ℚ) - 1) := by
              exact mul_lt_mul_of_pos_right hq1 hpos
          _ = (x.length : ℚ) - 1 := one_mul _
      have h2 : ((k * (x.length - 1) / 5 : ℕ) : ℚ) <
          ((x.length - 1 : ℕ) : ℚ) := by
        calc ((k * (x.length - 1) / 5 : ℕ) : ℚ) =
            ((⌊(k : ℚ) / ((5 : ℕ) : ℚ) * ((x.length : ℚ) - 1)⌋₊ : ℕ) : ℚ) := by rw [hfl]
          _ ≤ (k : ℚ) / ((5 : ℕ) : ℚ) * ((x.length : ℚ) - 1) := by
              apply Nat.floor_le
              rw [hq5]
              apply mul_nonneg (div_nonneg (Nat.cast_nonneg k) (by norm_num))
              linarith
          _ < (x.length : ℚ) - 1 := h1
          _ = ((x.length - 1 : ℕ) : ℚ) := hcast
      exact_mod_cast h2
    rw [hfl]
    rw [range_map_getD 0 (by omega)]
    rw [range_map_getD ((k * (x.length - 1) / 5 + 1 : ℕ) : ℚ) (by omega)]
    rw [hq5]
    push_cast
    ring
  · have hk5e : k = 5 := by omega
    subst hk5e
    have hfl5 : (5 : ℕ) * (x.length - 1) / 5 = x.length - 1 :=
      Nat.mul_div_cancel_left _ (by norm_num)
    rw [hfl, hfl5]
    rw [range_map_getD 0 (by omega)]
    rw [List.getD_eq_default _ _ (by
      rw [List.length_map, List.length_range]; omega)]
    rw [hq5, hcast]
    push_cast [Nat.cast_sub hn1]
    ring

theorem countP_range_le_const (n c : ℕ) :
    (List.range n).countP (fun j => decide (j ≤ c)) = min n (c + 1) := by
  induction n with
  | zero => simp
  | succ n ih =>
      rw [List.range_succ, List.countP_append, ih, List.countP_cons, List.countP_nil]
      simp only [decide_eq_true_eq]
      split_ifs with hc <;> omega

theorem countP_range_mul_le (n t : ℕ) :
    (List.range n).countP (fun j => decide (5 * j ≤ t)) = min n (t / 5 + 1) := by
  rw [← countP_range_le_const n (t / 5)]
  apply List.countP_congr
  intro j _
  simp only [decide_eq_true_eq]
  rw [Nat.le_div_iff_mul_le (by norm_num : 0 < 5), Nat.mul_comm]

theorem le_edge_iff {n : ℕ} (hn : 1 ≤ n) (j k : ℕ) :
    ((j + 1 : ℕ) : ℚ) ≤ 1 + (k : ℚ) * ((n : ℚ) - 1) / 5 ↔ 5 * j ≤ k * (n - 1) := by
  have hcast : ((n : ℚ) - 1) = ((n - 1 : ℕ) : ℚ) := by
    rw [Nat.cast_sub hn]; push_cast; ring
  rw [hcast]
  constructor
  · intro h
    have h2 : (j : ℚ) * 5 ≤ (k : ℚ) * ((n - 1 : ℕ) : ℚ) := by
      rw [← le_div_iff₀ (by norm_num : (0 : ℚ) < 5)]
      push_cast at h
      linarith
    have h3 : ((5 * j : ℕ) : ℚ) ≤ ((k * (n - 1) : ℕ) : ℚ) := by
      push_cast
      linarith
    exact_mod_cast h3
  · intro h
    have h2 : ((5 * j : ℕ) : ℚ) ≤ ((k * (n - 1) : ℕ) : ℚ) := by exact_mod_cast h
    push_cast at h2 ⊢
    linarith

theorem bin5_beq_zero (e1 e2 e3 e4 v : ℚ) :
    (bin5 e1 e2 e3 e4 v == (0 : Fin 5)) = decide (v ≤ e1) := by
  have hbeq : ∀ a : Fin 5, (a == (0 : Fin 5)) = decide (a.val = 0) := by decide
  rw [hbeq]
  by_cases h1 : v ≤ e1
  · simp [bin5_val, h1]
  · by_cases h2 : v ≤ e2
    · simp [bin5_val, h1, h2]
    · by_cases h3 : v ≤ e3
      · simp [bin5_val, h1, h2, h3]
      · by_cases h4 : v ≤ e4 <;> simp [bin5_val, h1, h2, h3, h4]

theorem bin5_beq_one (e1 e2 e3 e4 v : ℚ) :
    (bin5 e1 e2 e3 e4 v == (1 : Fin 5)) = (decide (v ≤ e2) && !decide (v ≤ e1)) := by
  have hbeq : ∀ a : Fin 5, (a == (1 : Fin 5)) = decide (a.val = 1) := by decide
  rw [hbeq]
  by_cases h1 : v ≤ e1
  · simp [bin5_val, h1]
  · by_cases h2 : v ≤ e2
    · simp [bin5_val, h1, h2]
    · by_cases h3 : v ≤ e3
      · simp [bin5_val, h1, h2, h3]
      · by_cases h4 : v ≤ e4 <;> simp [bin5_val, h1, h2, h3, h4]

theorem bin5_beq_two {e1 e2 e3 e4 : ℚ} (h12 : e1 ≤ e2) (v : ℚ) :
    (bin5 e1 e2 e3 e4 v == (2 : Fin 5)) = (decide (v ≤ e3) && !decide (v ≤ e2)) := by
  have hbeq : ∀ a : Fin 5, (a == (2 : Fin 5)) = decide (a.val = 2) := by decide
  rw [hbeq]
  by_cases h1 : v ≤ e1
  · simp [bin5_val, h1, le_trans h1 h12]
  · by_cases h2 : v ≤ e2
    · simp [bin5_val, h1, h2]
    · by_cases h3 : v ≤ e3
      · simp [bin5_val, h1, h2, h3]
      · by_cases h4 : v ≤ e4 <;> simp [bin5_val, h1, h2, h3, h4]

theorem bin5_beq_three {e1 e2 e3 e4 : ℚ} (h12 : e1 ≤ e2) (h23 : e2 ≤ e3) (v : ℚ) :
    (bin5 e1 e2 e3 e4 v == (3 : Fin 5)) = (decide (v ≤ e4) && !decide (v ≤ e3)) := by
  have hbeq : ∀ a : Fin 5, (a == (3 : Fin 5)) = decide (a.val = 3) := by decide
  rw [hbeq]
  by_cases h1 : v ≤ e1
  · simp [bin5_val, h1, le_trans h1 (le_trans h12 h23)]
  · by_cases h2 : v ≤ e2
    · simp [bin5_val, h1, h2, le_trans h2 h23]
    · by_cases h3 : v ≤ e3
      · simp [bin5_val, h1, h2, h3]
      · by_cases h4 : v ≤ e4 <;> simp [bin5_val, h1, h2, h3, h4]

theorem bin5_beq_four {e1 e2 e3 e4 : ℚ} (h12 : e1 ≤ e2) (h23 : e2 ≤ e3)
    (h34 : e3 ≤ e4) (v : ℚ) :
    (bin5 e1 e2 e3 e4 v == (4 : Fin 5)) = !decide (v ≤ e4) := by
  have hbeq : ∀ a : Fin 5, (a == (4 : Fin 5)) = decide (a.val = 4) := by decide
  rw [hbeq]
  by_cases h1 : v ≤ e1
  · simp [bin5_val, h1, le_trans h1 (le_trans h12 (le_trans h23 h34))]
  · by_cases h2 : v ≤ e2
    · simp [bin5_val, h1, h2, le_trans h2 (le_trans h23 h34)]
    · by_cases h3 : v ≤ e3
      · simp [bin5_val, h1, h2, h3, le_trans h3 h34]
      · by_cases h4 : v ≤ e4 <;> simp [bin5_val, h1, h2, h3, h4]

/-- The population of label `lab` in the F column, reduced to a count over
ranks `1, …, n`. -/
theorem fs_count (x : List ℚ) (e1 e2 e3 e4 : ℚ) (lab : Fin 5) :
    ((rankFirst x).map (fun v => fmLabel (bin5 e1 e2 e3 e4 v))).countP
        (fun y => y == fmLabel lab) =
      (List.range x.length).countP
        (fun j => bin5 e1 e2 e3 e4 ((j + 1 : ℕ) : ℚ) == lab) := by
  rw [List.countP_map]
  have hfm : ∀ a b : Fin 5, ((fmLabel a == fmLabel b) = true ↔ (a == b) = true) := by
    decide
  have h1 : (rankFirst x).countP
      ((fun y => y == fmLabel lab) ∘ (fun v => fmLabel (bin5 e1 e2 e3 e4 v))) =
      (rankFirst x).countP (fun v => bin5 e1 e2 e3 e4 v == lab) :=
    List.countP_congr (fun v _ => hfm _ _)
  rw [h1, List.Perm.countP_eq _ (rankFirst_perm x), List.countP_map]
  rfl

/-- C7: with at least 5 customers, ranking the frequency column first
(ties broken by row order) makes all ranked values distinct — a permutation
of `1, …, n` — so the quintile cut of the F score always succeeds with
exactly 5 nonempty groups whose sizes differ by at most one, and the labels
grow with raw frequency (1 on the lowest-frequency quintile, 5 on the
highest). -/
theorem claim_C7 (df : List FeatRow) (h5 : 5 ≤ (custKeys df).length) :
    (rankFirst (frequencyCol df)).Nodup ∧
    (rankFirst (frequencyCol df)).Perm
      ((List.range (custKeys df).length).map (fun j => ((j + 1 : ℕ) : ℚ))) ∧
    ∃ fs, fCol df = some fs ∧
      (∀ lab : Fin 5, 1 ≤ fs.countP (fun y => y == fmLabel lab)) ∧
      (∀ l1 l2 : Fin 5,
        fs.countP (fun y => y == fmLabel l1) ≤
          fs.countP (fun y => y == fmLabel l2) + 1) ∧
      (∀ i j, i < (custKeys df).length → j < (custKeys df).length →
        (frequencyCol df).getD i 0 < (frequencyCol df).getD j 0 →
        fs.getD i 0 ≤ fs.getD j 0) := by
  have hlen : (frequencyCol df).length = (custKeys df).length := frequencyCol_length df
  have hn5 : 5 ≤ (frequencyCol df).length := by omega
  have hn2 : 2 ≤ (frequencyCol df).length := by omega
  have hn1 : 1 ≤ (frequencyCol df).length := by omega
  have hedge : ∀ k : ℕ, k ≤ 5 → quantEdge (rankFirst (frequencyCol df)) k 5 =
      1 + (k : ℚ) * (((frequencyCol df).length : ℚ) - 1) / 5 :=
    fun k hk => quantEdge_rankFirst hn2 hk
  have hm0 : (0 : ℚ) ≤ ((frequencyCol df).length : ℚ) - 1 := by
    have : (1 : ℚ) ≤ ((frequencyCol df).length : ℚ) := by exact_mod_cast hn1
    linarith
  have hmpos : (0 : ℚ) < ((frequencyCol df).length : ℚ) - 1 := by
    have : (2 : ℚ) ≤ ((frequencyCol df).length : ℚ) := by exact_mod_cast hn2
    linarith
  have hstep : ∀ k1 k2 : ℕ, k1 < k2 → k2 ≤ 5 →
      quantEdge (rankFirst (frequencyCol df)) k1 5 <
        quantEdge (rankFirst (frequencyCol df)) k2 5 := by
    intro k1 k2 hk hk2
    rw [hedge k1 (by omega), hedge k2 hk2]
    have hq : (k1 : ℚ) < (k2 : ℚ) := by exact_mod_cast hk
    have := mul_lt_mul_of_pos_right hq hmpos
    linarith
  have hfcol : fCol df = some ((rankFirst (frequencyCol df)).map (fun v =>
      fmLabel (bin5 (quantEdge (rankFirst (frequencyCol df)) 1 5)
        (quantEdge (rankFirst (frequencyCol df)) 2 5)
        (quantEdge (rankFirst (frequencyCol df)) 3 5)
        (quantEdge (rankFirst (frequencyCol df)) 4 5) v))) := by
    unfold fCol qcut5
    rw [if_pos ⟨hstep 0 1 (by omega) (by omega), hstep 1 2 (by omega) (by omega),
      hstep 2 3 (by omega) (by omega), hstep 3 4 (by omega) (by omega),
      hstep 4 5 (by omega) (by omega)⟩]
  refine ⟨rankFirst_nodup _, by rw [← hlen]; exact rankFirst_perm _, ?_⟩
  refine ⟨_, hfcol, ?_⟩
  have h12 : quantEdge (rankFirst (frequencyCol df)) 1 5 ≤
      quantEdge (rankFirst (frequencyCol df)) 2 5 :=
    le_of_lt (hstep 1 2 (by omega) (by omega))
  have h23 : quantEdge (rankFirst (frequencyCol df)) 2 5 ≤
      quantEdge (rankFirst (frequencyCol df)) 3 5 :=
    le_of_lt (hstep 2 3 (by omega) (by omega))
  have h34 : quantEdge (rankFirst (frequencyCol df)) 3 5 ≤
      quantEdge (rankFirst (frequencyCol df)) 4 5 :=
    le_of_lt (hstep 3 4 (by omega) (by omega))
  have hdec : ∀ (j k : ℕ), k ≤ 5 →
      decide (((j + 1 : ℕ) : ℚ) ≤ quantEdge (rankFirst (frequencyCol df)) k 5) =
        decide (5 * j ≤ k * ((frequencyCol df).length - 1)) := by
    intro j k hk
    rw [hedge k hk]
    exact decide_eq_decide.mpr (le_edge_iff hn1 j k)
  have hdiff : ∀ t1 t2 : ℕ, t1 ≤ t2 →
      (List.range (frequencyCol df).length).countP
          (fun j => decide (5 * j ≤ t2) && !decide (5 * j ≤ t1)) +
        min (frequencyCol df).length (t1 / 5 + 1) =
        min (frequencyCol df).length (t2 / 5 + 1) := by
    intro t1 t2 ht
    have := countP_and_not (fun j => decide (5 * j ≤ t2)) (fun j => decide (5 * j ≤ t1))
      (List.range (frequencyCol df).length)
      (fun j _ hq => by
        simp only [decide_eq_true_eq] at hq ⊢
        omega)
    rw [countP_range_mul_le, countP_range_mul_le] at this
    exact this
  have hc0 : ((rankFirst (frequencyCol df)).map (fun v =>
      fmLabel (bin5 (quantEdge (rankFirst (frequencyCol df)) 1 5)
        (quantEdge (rankFirst (frequencyCol df)) 2 5)
        (quantEdge (rankFirst (frequencyCol df)) 3 5)
        (quantEdge (rankFirst (frequencyCol df)) 4 5) v))).countP
        (fun y => y == fmLabel 0) =
      min (frequencyCol df).length (1 * ((frequencyCol df).length - 1) / 5 + 1) := by
    rw [fs_count, ← countP_range_mul_le (frequencyCol df).length
      (1 * ((frequencyCol df).length - 1))]
    exact List.countP_congr (fun j hj => by
      rw [bin5_beq_zero, hdec j 1 (by omega)])
  have hc1 : ((rankFirst (frequencyCol df)).map (fun v =>
      fmLabel (bin5 (quantEdge (rankFirst (frequencyCol df)) 1 5)
        (quantEdge (rankFirst (frequencyCol df)) 2 5)
        (quantEdge (rankFirst (frequencyCol df)) 3 5)
        (quantEdge (rankFirst (frequencyCol df)) 4 5) v))).countP
        (fun y => y == fmLabel 1) +
      min (frequencyCol df).length (1 * ((frequencyCol df).length - 1) / 5 + 1) =
      min (frequencyCol df).length (2 * ((frequencyCol df).length - 1) / 5 + 1) := by
    have hc : ((rankFirst (frequencyCol df)).map (fun v =>
        fmLabel (bin5 (quantEdge (rankFirst (frequencyCol df)) 1 5)
          (quantEdge (rankFirst (frequencyCol df)) 2 5)
          (quantEdge (rankFirst (frequencyCol df)) 3 5)
          (quantEdge (rankFirst (frequencyCol df)) 4 5) v))).countP
          (fun y => y == fmLabel 1) =
        (List.range (frequencyCol df).length).countP
          (fun j => decide (5 * j ≤ 2 * ((frequencyCol df).length - 1)) &&
            !decide (5 * j ≤ 1 * ((frequencyCol df).length - 1))) := by
      rw [fs_count]
      exact List.countP_congr (fun j hj => by
        rw [bin5_beq_one, hdec j 2 (by omega), hdec j 1 (by omega)])
    rw [hc]
    exact hdiff _ _ (by omega)
  have hc2 : ((rankFirst (frequencyCol df)).map (fun v =>
      fmLabel (bin5 (quantEdge (rankFirst (frequencyCol df)) 1 5)
        (quantEdge (rankFirst (frequencyCol df)) 2 5)
        (quantEdge (rankFirst (frequencyCol df)) 3 5)
        (quantEdge (rankFirst (frequencyCol df)) 4 5) v))).countP
        (fun y => y == fmLabel 2) +
      min (frequencyCol df).length (2 * ((frequencyCol df).length - 1) / 5 + 1) =
      min (frequencyCol df).length (3 * ((frequencyCol df).length - 1) / 5 + 1) := by
    have hc : ((rankFirst (frequencyCol df)).map (fun v =>
        fmLabel (bin5 (quantEdge (rankFirst (frequencyCol df)) 1 5)
          (quantEdge (rankFirst (frequencyCol df)) 2 5)
          (quantEdge (rankFirst (frequencyCol df)) 3 5)
          (quantEdge (rankFirst (frequencyCol df)) 4 5) v))).countP
          (fun y => y == fmLabel 2) =
        (List.range (frequencyCol df).length).countP
          (fun j => decide (5 * j ≤ 3 * ((frequencyCol df).length - 1)) &&
            !decide (5 * j ≤ 2 * ((frequencyCol df).length - 1))) := by
      rw [fs_count]
      exact List.countP_congr (fun j hj => by
        rw [bin5_beq_two h12, hdec j 3 (by omega), hdec j 2 (by omega)])
    rw [hc]
    exact hdiff _ _ (by omega)
  have hc3 : ((rankFirst (frequencyCol df)).map (fun v =>
      fmLabel (bin5 (quantEdge (rankFirst (frequencyCol df)) 1 5)
        (quantEdge (rankFirst (frequencyCol df)) 2 5)
        (quantEdge (rankFirst (frequencyCol df)) 3 5)
        (quantEdge (rankFirst (frequencyCol df)) 4 5) v))).countP
        (fun y => y == fmLabel 3) +
      min (frequencyCol df).length (3 * ((frequencyCol df).length - 1) / 5 + 1) =
      min (frequencyCol df).length (4 * ((frequencyCol df).length - 1) / 5 + 1) := by
    have hc : ((rankFirst (frequencyCol df)).map (fun v =>
        fmLabel (bin5 (quantEdge (rankFirst (frequencyCol df)) 1 5)
          (quantEdge (rankFirst (frequencyCol df)) 2 5)
          (quantEdge (rankFirst (frequencyCol df)) 3 5)
          (quantEdge (rankFirst (frequencyCol df)) 4 5) v))).countP
          (fun y => y == fmLabel 3) =
        (List.range (frequencyCol df).length).countP
          (fun j => decide (5 * j ≤ 4 * ((frequencyCol df).length - 1)) &&
            !decide (5 * j ≤ 3 * ((frequencyCol df).length - 1))) := by
      rw [fs_count]
      exact List.countP_congr (fun j hj => by
        rw [bin5_beq_three h12 h23, hdec j 4 (by omega), hdec j 3 (by omega)])
    rw [hc]
    exact hdiff _ _ (by omega)
  have hc4 : ((rankFirst (frequencyCol df)).map (fun v =>
      fmLabel (bin5 (quantEdge (rankFirst (frequencyCol df)) 1 5)
        (quantEdge (rankFirst (frequencyCol df)) 2 5)
        (quantEdge (rankFirst (frequencyCol df)) 3 5)
        (quantEdge (rankFirst (frequencyCol df)) 4 5) v))).countP
        (fun y => y == fmLabel 4) +
      min (frequencyCol df).length (4 * ((frequencyCol df).length - 1) / 5 + 1) =
      (frequencyCol df).length := by
    have hc : ((rankFirst (frequencyCol df)).map (fun v =>
        fmLabel (bin5 (quantEdge (rankFirst (frequencyCol df)) 1 5)
          (quantEdge (rankFirst (frequencyCol df)) 2 5)
          (quantEdge (rankFirst (frequencyCol df)) 3 5)
          (quantEdge (rankFirst (frequencyCol df)) 4 5) v))).countP
          (fun y => y == fmLabel 4) =
        (List.range (frequencyCol df).length).countP
          (fun j => !decide (5 * j ≤ 4 * ((frequencyCol df).length - 1))) := by
      rw [fs_count]
      exact List.countP_congr (fun j hj => by
        rw [bin5_beq_four h12 h23 h34, hdec j 4 (by omega)])
    rw [hc]
    have := countP_and_not (fun _ => true)
      (fun j => decide (5 * j ≤ 4 * ((frequencyCol df).length - 1)))
      (List.range (frequencyCol df).length) (fun j _ _ => rfl)
    rw [countP_range_mul_le] at this
    have hid : (List.range (frequencyCol df).length).countP
        (fun j => true && !decide (5 * j ≤ 4 * ((frequencyCol df).length - 1))) =
        (List.range (frequencyCol df).length).countP
          (fun j => !decide (5 * j ≤ 4 * ((frequencyCol df).length - 1))) :=
      List.countP_congr (fun j _ => by simp)
    rw [hid] at this
    have hlen2 : (List.range (frequencyCol df).length).countP (fun _ => true) =
        (frequencyCol df).length := by
      rw [List.countP_true, List.length_range]
    omega
  have hlab5 : ∀ lab : Fin 5, lab = 0 ∨ lab = 1 ∨ lab = 2 ∨ lab = 3 ∨ lab = 4 := by
    decide
  refine ⟨?_, ?_, ?_⟩
  · intro lab
    rcases hlab5 lab with rfl | rfl | rfl | rfl | rfl <;> omega
  · intro l1 l2
    rcases hlab5 l1 with rfl | rfl | rfl | rfl | rfl <;>
      rcases hlab5 l2 with rfl | rfl | rfl | rfl | rfl <;> omega
  · intro i j hi hj hfreq
    have hqf : qcut5 (rankFirst (frequencyCol df)) fmLabel =
        some ((rankFirst (frequencyCol df)).map (fun v =>
          fmLabel (bin5 (quantEdge (rankFirst (frequencyCol df)) 1 5)
            (quantEdge (rankFirst (frequencyCol df)) 2 5)
            (quantEdge (rankFirst (frequencyCol df)) 3 5)
            (quantEdge (rankFirst (frequencyCol df)) 4 5) v))) := hfcol
    have hi2 : i < (rankFirst (frequencyCol df)).length := by
      rw [rankFirst_length]; omega
    have hj2 : j < (rankFirst (frequencyCol df)).length := by
      rw [rankFirst_length]; omega
    rw [qcut5_getD hqf i hi2, qcut5_getD hqf j hj2]
    have hrank : (rankFirst (frequencyCol df)).getD i 0 <
        (rankFirst (frequencyCol df)).getD j 0 :=
      rankFirst_lt_of_lt (by omega) (by omega) hfreq
    have hb := bin5_val_mono
      (quantEdge (rankFirst (frequencyCol df)) 1 5)
      (quantEdge (rankFirst (frequencyCol df)) 2 5)
      (quantEdge (rankFirst (frequencyCol df)) 3 5)
      (quantEdge (rankFirst (frequencyCol df)) 4 5)
      (le_of_lt hrank)
    unfold fmLabel
    omega

/-- C7 witness: the F-score pipeline on the concrete five-customer table. -/
theorem claim_C7_witness :
    (rankFirst (frequencyCol tableC4)).Nodup ∧
    (rankFirst (frequencyCol tableC4)).Perm
      ((List.range (custKeys tableC4).length).map (fun j => ((j + 1 : ℕ) : ℚ))) ∧
    ∃ fs, fCol tableC4 = some fs ∧
      (∀ lab : Fin 5, 1 ≤ fs.countP (fun y => y == fmLabel lab)) ∧
      (∀ l1 l2 : Fin 5,
        fs.countP (fun y => y == fmLabel l1) ≤
          fs.countP (fun y => y == fmLabel l2) + 1) ∧
      (∀ i j, i < (custKeys tableC4).length → j < (custKeys tableC4).length →
        (frequencyCol tableC4).getD i 0 < (frequencyCol tableC4).getD j 0 →
        fs.getD i 0 ≤ fs.getD j 0) :=
  claim_C7 tableC4 (by decide)

end EcomSilver
